import Mathlib

/-!
Verification of the idle-game economy engine.

Shallow embedding of the core model of the repository
(`src/core/Resource.ts`, `Multiplier.ts`, `Generator.ts`, `Upgrade.ts`,
`Achievement.ts`, `Statistics.ts`, `GameEngine.ts`).  JavaScript numbers
are modelled as rationals (`ℚ`), integer counters as `ℤ`/`ℕ`, `Map`s as
association lists with insert-or-replace update (`mapSet`) and
first-match lookup, matching the unique-key semantics of `Map`.
Side-effecting callbacks (upgrade effects) are modelled as explicit
state transformers; reward/effect invocations are counted explicitly.
-/

namespace Idle

/-- First element of a list whose key equals `k` (models `Map.get`,
keys being unique in a `Map`). -/
def findFirst {α : Type} (key : α → String) (k : String) : List α → Option α
  | [] => none
  | x :: rest => if key x = k then some x else findFirst key k rest

/-- Update (in place) the first element whose key equals `k`
(models mutating the object stored in a `Map`). -/
def updateFirst {α : Type} (key : α → String) (f : α → α) (k : String) :
    List α → List α
  | [] => []
  | x :: rest => if key x = k then f x :: rest else x :: updateFirst key f k rest

/-- `Map.set`: replace the value at an existing key in place, else append. -/
def mapSet : List (String × ℚ) → String → ℚ → List (String × ℚ)
  | [], k, v => [(k, v)]
  | (k', v') :: rest, k, v =>
    if k' = k then (k, v) :: rest else (k', v') :: mapSet rest k v

/-- `map.get(k) || 0`: lookup with default `0`. -/
def mapGetD0 : List (String × ℚ) → String → ℚ
  | [], _ => 0
  | (k', v') :: rest, k => if k' = k then v' else mapGetD0 rest k

/-- Entrywise addition of the map `m` into the accumulator map `acc`
(the inner loop of the bulk-cost accumulation). -/
def addInto (acc m : List (String × ℚ)) : List (String × ℚ) :=
  m.foldl (fun acc2 p => mapSet acc2 p.1 (mapGetD0 acc2 p.1 + p.2)) acc

/-- Sum of the values stored under key `k` (a specification-side helper). -/
def sumVals (m : List (String × ℚ)) (k : String) : ℚ :=
  ((m.filter fun p => p.1 == k).map fun p => p.2).sum

/-- Resource (src/core/Resource.ts): a named quantity with optional maximum. -/
structure Resource where
  id : String
  amount : ℚ
  maxAmount : Option ℚ
deriving DecidableEq

/-- `Resource.add`: `amount += value`, clamped down to `maxAmount` when set. -/
def Resource.add (r : Resource) (value : ℚ) : Resource :=
  let a := r.amount + value
  match r.maxAmount with
  | some m => if m < a then { r with amount := m } else { r with amount := a }
  | none => { r with amount := a }

/-- `Resource.subtract`: succeeds (deducting) iff `amount ≥ value`,
returning the success flag and the resulting resource. -/
def Resource.subtract (r : Resource) (value : ℚ) : Bool × Resource :=
  if value ≤ r.amount then (true, { r with amount := r.amount - value })
  else (false, r)

/-- `Resource.canAfford`: `amount ≥ value`. -/
def Resource.canAfford (r : Resource) (value : ℚ) : Bool :=
  decide (value ≤ r.amount)

/-- The two multiplier kinds of src/core/Multiplier.ts. -/
inductive MulKind
  | additive
  | multiplicative
deriving DecidableEq

/-- Multiplier (src/core/Multiplier.ts). -/
structure Multiplier where
  id : String
  type : MulKind
  value : ℚ
  target : Option String
  active : Bool
deriving DecidableEq

/-- `Multiplier.apply`: identity when inactive, else add or multiply `value`. -/
def Multiplier.apply (m : Multiplier) (baseValue : ℚ) : ℚ :=
  if !m.active then baseValue
  else
    match m.type with
    | .additive => baseValue + m.value
    | .multiplicative => baseValue * m.value

/-- One cost schedule of a generator (`scalingFactor` already defaulted to
`1.15` by the constructor). -/
structure GeneratorCost where
  resourceId : String
  baseAmount : ℚ
  scalingFactor : ℚ
deriving DecidableEq

/-- Generator (src/core/Generator.ts). -/
structure Generator where
  id : String
  producesResourceId : String
  baseProductionRate : ℚ
  costs : List GeneratorCost
  maxPurchases : Option ℤ
  purchased : ℤ
  productionMultipliers : List Multiplier
deriving DecidableEq

/-- `getCurrentCostsForPurchase(purchaseCount)`: the cost map
`baseAmount * scalingFactor ^ purchaseCount` per schedule, built with
`Map.set` (a later schedule with the same resourceId replaces an earlier). -/
def Generator.getCurrentCostsForPurchase (g : Generator) (purchaseCount : ℤ) :
    List (String × ℚ) :=
  g.costs.foldl
    (fun m c => mapSet m c.resourceId (c.baseAmount * c.scalingFactor ^ purchaseCount))
    []

/-- The bulk-cost map accumulated by `canPurchase`/`purchase`: for
`i = 0 .. quantity-1` the single-unit cost maps at owned count
`purchased + i` are added entrywise into a running total map. -/
def Generator.totalCost (g : Generator) (quantity : ℕ) : List (String × ℚ) :=
  (List.range quantity).foldl
    (fun acc i =>
      (g.getCurrentCostsForPurchase (g.purchased + (i : ℤ))).foldl
        (fun acc2 p => mapSet acc2 p.1 (mapGetD0 acc2 p.1 + p.2)) acc)
    []

/-- `Generator.canPurchase`: fails when a max purchase count would be
exceeded, else requires every resource of the bulk-cost map to exist and
afford its total.  In the source `quantity` is an arbitrary number; a
non-positive quantity makes the accumulation loop body run zero times
(hence `quantity.toNat`). -/
def Generator.canPurchase (g : Generator) (resources : List Resource)
    (quantity : ℤ) : Bool :=
  if (match g.maxPurchases with
      | some m => decide (m < g.purchased + quantity)
      | none => false) then false
  else
    (g.totalCost quantity.toNat).all fun p =>
      match findFirst Resource.id p.1 resources with
      | none => false
      | some r => r.canAfford p.2

/-- `Generator.purchase`: re-validates, deducts the bulk-cost map entrywise
via `Resource.subtract` (missing resources are skipped), then increments
`purchased` by `quantity`.  Returns the success flag and the new states. -/
def Generator.purchase (g : Generator) (resources : List Resource)
    (quantity : ℤ) : Bool × Generator × List Resource :=
  if !g.canPurchase resources quantity then (false, g, resources)
  else
    let tc := g.totalCost quantity.toNat
    let resources' := tc.foldl
      (fun rs p => updateFirst Resource.id (fun r => (r.subtract p.2).2) p.1 rs)
      resources
    (true, { g with purchased := g.purchased + quantity }, resources')

/-- The binary-search loop of `getMaxAffordable`, with explicit fuel.  The
source's `while (left <= right)` loop shrinks the interval on every pass,
so with fuel strictly exceeding the initial interval length the fuel is
never exhausted and this function computes exactly what the loop does. -/
def Generator.bsearch (g : Generator) (resources : List Resource) :
    ℕ → ℤ → ℤ → ℤ → ℤ
  | 0, _, _, result => result
  | fuel + 1, left, right, result =>
    if left ≤ right then
      let mid := Int.fdiv (left + right) 2
      if g.canPurchase resources mid then
        g.bsearch resources fuel (mid + 1) right mid
      else
        g.bsearch resources fuel left (mid - 1) result
    else result

/-- The search ceiling of `getMaxAffordable`: remaining room under
`maxPurchases`, or the sentinel `1000`. -/
def Generator.maxCheckOf (g : Generator) : ℤ :=
  match g.maxPurchases with
  | some m => m - g.purchased
  | none => 1000

/-- `Generator.getMaxAffordable`: binary search for the largest affordable
quantity over `[0, maxCheck]`. -/
def Generator.getMaxAffordable (g : Generator) (resources : List Resource) : ℤ :=
  let maxCheck := g.maxCheckOf
  g.bsearch resources (maxCheck + 2).toNat 0 maxCheck 0

/-- `Generator.getCurrentProduction`: `baseProductionRate * purchased`,
folded left-to-right through the attached multipliers, applying only the
active ones. -/
def Generator.getCurrentProduction (g : Generator) : ℚ :=
  g.productionMultipliers.foldl
    (fun production m => if m.active then m.apply production else production)
    (g.baseProductionRate * (g.purchased : ℚ))

/-- One flat cost of an upgrade (src/core/Upgrade.ts). -/
structure UpgradeCost where
  resourceId : String
  amount : ℚ
deriving DecidableEq

/-- Upgrade (src/core/Upgrade.ts).  The `effect` callback is opaque at this
level; `Upgrade.purchase` reports how many times it fires. -/
structure Upgrade where
  id : String
  costs : List UpgradeCost
  maxPurchases : ℤ
  purchased : ℤ
deriving DecidableEq

/-- `Upgrade.canPurchase`: not maxed out and every flat cost affordable. -/
def Upgrade.canPurchase (u : Upgrade) (resources : List Resource) : Bool :=
  if u.maxPurchases ≤ u.purchased then false
  else
    u.costs.all fun c =>
      match findFirst Resource.id c.resourceId resources with
      | none => false
      | some r => r.canAfford c.amount

/-- `Upgrade.purchase`: on success subtract each flat cost in order
(missing resources skipped), increment `purchased`, fire the effect once
and return the cost list; on failure return `(false, [])` untouched.
Result: `((success, costs paid), upgrade, resources, effect invocations)`. -/
def Upgrade.purchase (u : Upgrade) (resources : List Resource) :
    (Bool × List UpgradeCost) × Upgrade × List Resource × ℕ :=
  if !u.canPurchase resources then ((false, []), u, resources, 0)
  else
    let resources' := u.costs.foldl
      (fun rs c => updateFirst Resource.id (fun r => (r.subtract c.amount).2) c.resourceId rs)
      resources
    ((true, u.costs), { u with purchased := u.purchased + 1 }, resources', 1)

/-- Achievement (src/core/Achievement.ts).  The condition closure is
modelled by passing its current boolean result to `check`; `hasReward`
records whether a reward callback is present. -/
structure Achievement where
  id : String
  hasReward : Bool
  unlocked : Bool
deriving DecidableEq

/-- `Achievement.check`: no-op returning `false` when already unlocked;
otherwise, when the condition holds, unlock, fire the reward (when
present) and return `true`.  Result: `(return value, achievement, reward
invocations)`. -/
def Achievement.check (a : Achievement) (condition : Bool) :
    Bool × Achievement × ℕ :=
  if a.unlocked then (false, a, 0)
  else if condition then
    (true, { a with unlocked := true }, if a.hasReward then 1 else 0)
  else (false, a, 0)

/-- Iterated `check` over a sequence of condition results, accumulating the
number of `true` returns and of reward invocations. -/
def Achievement.runChecks (a : Achievement) : List Bool → Achievement × ℕ × ℕ
  | [] => (a, 0, 0)
  | c :: cs =>
    let step := a.check c
    let rest := step.2.1.runChecks cs
    (rest.1, (if step.1 then 1 else 0) + rest.2.1, step.2.2 + rest.2.2)

/-- The statistics record of src/core/Statistics.ts. -/
structure Statistics where
  totalResourcesEarned : List (String × ℚ)
  totalResourcesSpent : List (String × ℚ)
  totalGeneratorsPurchased : List (String × ℚ)
  totalUpgradesPurchased : List (String × ℚ)
  achievementsUnlocked : ℕ
  totalClicks : ℕ
  timePlayed : ℚ
  sessionStartTime : ℚ
deriving DecidableEq

/-- `StatisticsTracker.recordResourceEarned`. -/
def Statistics.recordResourceEarned (s : Statistics) (resourceId : String)
    (amount : ℚ) : Statistics :=
  let v := mapGetD0 s.totalResourcesEarned resourceId + amount
  { s with totalResourcesEarned := mapSet s.totalResourcesEarned resourceId v }

/-- `StatisticsTracker.updateTimePlayed` at wall-clock `now` (milliseconds):
fold the session delta into `timePlayed` (seconds) and restart the session. -/
def Statistics.updateTimePlayed (s : Statistics) (now : ℚ) : Statistics :=
  { s with
      timePlayed := s.timePlayed + (now - s.sessionStartTime) / 1000,
      sessionStartTime := now }

/-- The engine's owned collections (src/core/GameEngine.ts), `Map`s
modelled as id-keyed lists. -/
structure EngineState where
  resources : List Resource
  generators : List Generator
  upgrades : List Upgrade
  achievements : List Achievement
  stats : Statistics
deriving DecidableEq

/-- The persisted save record produced by `GameEngine.save`. -/
structure SaveData where
  resources : List (String × ℚ)
  generators : List (String × ℤ)
  upgrades : List (String × ℤ)
  achievements : List (String × Bool)
  statistics : Statistics
  timestamp : ℚ
deriving DecidableEq

/-- The per-generator body of the offline-progress loop, at an already
clamped duration `offlineTime`: when the target resource exists and the
production over the duration is strictly positive, add it to the resource
and record it in statistics; otherwise do nothing. -/
def offlineStep (offlineTime : ℚ) (st : EngineState) (g : Generator) : EngineState :=
  let production := g.getCurrentProduction * offlineTime
  match findFirst Resource.id g.producesResourceId st.resources with
  | none => st
  | some _ =>
    if 0 < production then
      let rs := updateFirst Resource.id (fun r => r.add production)
        g.producesResourceId st.resources
      { st with
          resources := rs,
          stats := st.stats.recordResourceEarned g.producesResourceId production }
    else st

/-- `GameEngine.processOfflineProgress`: clamp the elapsed seconds to 24
hours, then add each generator's production over the clamped duration to
its target resource (when the resource exists and the production is
strictly positive), recording the gain in statistics. -/
def processOfflineProgress (s : EngineState) (seconds : ℚ) : EngineState :=
  let offlineTime := min seconds (24 * 60 * 60)
  s.generators.foldl (offlineStep offlineTime) s

/-- The gain of resource `rid` over an (already clamped) duration `T`:
the sum, over generators targeting `rid` with strictly positive
production, of production × duration. -/
def gainOf (gens : List Generator) (rid : String) (T : ℚ) : ℚ :=
  ((gens.filter fun g =>
      g.producesResourceId == rid && decide (0 < g.getCurrentProduction)).map
    fun g => g.getCurrentProduction * T).sum

/-- The total offline gain of resource `rid` for elapsed seconds `t`. -/
def offlineGain (s : EngineState) (rid : String) (t : ℚ) : ℚ :=
  gainOf s.generators rid (min t (24 * 60 * 60))

/-- `GameEngine.save` at wall-clock `now`: fold the session time into
statistics, then snapshot every collection.  Returns the post-save engine
state together with the save record. -/
def engineSave (s : EngineState) (now : ℚ) : EngineState × SaveData :=
  let stats' := s.stats.updateTimePlayed now
  ({ s with stats := stats' },
   { resources := s.resources.map fun r => (r.id, r.amount)
     generators := s.generators.map fun g => (g.id, g.purchased)
     upgrades := s.upgrades.map fun u => (u.id, u.purchased)
     achievements := s.achievements.map fun a => (a.id, a.unlocked)
     statistics := stats'
     timestamp := now })

/-- `GameEngine.load` at wall-clock `now`, given the save record.  Upgrade
effect callbacks are closures over the whole engine; they are modelled as
state transformers `effects : upgrade id → EngineState → EngineState`,
replayed once per restored purchased unit.  Restores resource amounts,
generator/upgrade purchased counts and achievement unlocked flags from
the record, replaces statistics, then processes offline progress for the
elapsed time since the save timestamp.  One step of its
resource-restoring loop: -/
def loadResourceStep (st : EngineState) (p : String × ℚ) : EngineState :=
  { st with resources := updateFirst Resource.id (fun r => { r with amount := p.2 }) p.1 st.resources }

/-- One step of the generator-restoring loop of `load`. -/
def loadGeneratorStep (st : EngineState) (p : String × ℤ) : EngineState :=
  { st with generators := updateFirst Generator.id (fun g => { g with purchased := p.2 }) p.1 st.generators }

/-- One step of the upgrade-restoring loop of `load`: when the upgrade
exists, restore its purchased count and replay its effect once per
purchased unit. -/
def loadUpgradeStep (effects : String → EngineState → EngineState)
    (st : EngineState) (p : String × ℤ) : EngineState :=
  match findFirst Upgrade.id p.1 st.upgrades with
  | none => st
  | some _ =>
    (effects p.1)^[p.2.toNat]
      { st with upgrades := updateFirst Upgrade.id (fun u => { u with purchased := p.2 }) p.1 st.upgrades }

/-- One step of the achievement-restoring loop of `load`. -/
def loadAchievementStep (st : EngineState) (p : String × Bool) : EngineState :=
  { st with achievements := updateFirst Achievement.id (fun a => { a with unlocked := p.2 }) p.1 st.achievements }

/-- `GameEngine.load` itself: the four restoring loops in order, then the
statistics replacement and offline progress. -/
def engineLoad (effects : String → EngineState → EngineState) (sd : SaveData)
    (s : EngineState) (now : ℚ) : EngineState :=
  let s1 := sd.resources.foldl loadResourceStep s
  let s2 := sd.generators.foldl loadGeneratorStep s1
  let s3 := sd.upgrades.foldl (loadUpgradeStep effects) s2
  let s4 := sd.achievements.foldl loadAchievementStep s3
  let s5 := { s4 with stats := sd.statistics }
  processOfflineProgress s5 ((now - sd.timestamp) / 1000)

/-- The resource observables: id and amount of every resource, in order. -/
def resObs (s : EngineState) : List (String × ℚ) :=
  s.resources.map fun r => (r.id, r.amount)

/-- The generator observables: id and purchased count. -/
def genObs (s : EngineState) : List (String × ℤ) :=
  s.generators.map fun g => (g.id, g.purchased)

/-- The upgrade observables: id and purchased count. -/
def upgObs (s : EngineState) : List (String × ℤ) :=
  s.upgrades.map fun u => (u.id, u.purchased)

/-- The achievement observables: id and unlocked flag. -/
def achObs (s : EngineState) : List (String × Bool) :=
  s.achievements.map fun a => (a.id, a.unlocked)

/-- The observable quadruple the round-trip claim speaks about: every
resource's amount, every generator's and upgrade's purchased count, and
every achievement's unlocked flag. -/
def obs4 (s : EngineState) :
    List (String × ℚ) × List (String × ℤ) × List (String × ℤ) ×
      List (String × Bool) :=
  (resObs s, genObs s, upgObs s, achObs s)

/-! Concrete instances used by the witnesses and counterexamples. -/

/-- An active ×2 multiplicative multiplier. -/
def mulX2a : Multiplier :=
  { id := "x2a", type := .multiplicative, value := 2, target := none, active := true }

/-- A second active ×2 multiplicative multiplier. -/
def mulX2b : Multiplier :=
  { id := "x2b", type := .multiplicative, value := 2, target := none, active := true }

/-- Base production 10, owned count 1, two active ×2 multipliers. -/
def gC2ex : Generator :=
  { id := "gen", producesResourceId := "r", baseProductionRate := 10, costs := [],
    maxPurchases := none, purchased := 1, productionMultipliers := [mulX2a, mulX2b] }

/-- The generator of the spec's bulk-cost example:
`baseAmount = 10`, `scalingFactor = 1.15`, owned count 0. -/
def gC1ex : Generator :=
  { id := "gen", producesResourceId := "r",
    baseProductionRate := 1, costs := [{ resourceId := "r", baseAmount := 10, scalingFactor := 1.15 }],
    maxPurchases := none, purchased := 0, productionMultipliers := [] }

/-- A generator used to drive `purchase` with a negative quantity. -/
def gC9ex : Generator :=
  { id := "gen", producesResourceId := "r",
    baseProductionRate := 1, costs := [{ resourceId := "gold", baseAmount := 10, scalingFactor := 2 }],
    maxPurchases := none, purchased := 0, productionMultipliers := [] }

/-- Generator with a negative-base cost schedule (`scalingFactor = 1`),
within the hypotheses of the claim about `getMaxAffordable`. -/
def gC3ex : Generator :=
  { id := "gen", producesResourceId := "r",
    baseProductionRate := 1, costs := [{ resourceId := "gold", baseAmount := -10, scalingFactor := 1 }],
    maxPurchases := some 4, purchased := 0, productionMultipliers := [] }

/-- A `gold` balance of `-35` (amounts are not forced to be nonnegative). -/
def resC3ex : List Resource := [{ id := "gold", amount := -35, maxAmount := none }]

/-- A generator used in the `getMaxAffordable` witness: cost 10·2^k,
at most 3 purchases. -/
def gC3w : Generator :=
  { id := "gen", producesResourceId := "r",
    baseProductionRate := 1, costs := [{ resourceId := "gold", baseAmount := 10, scalingFactor := 2 }],
    maxPurchases := some 3, purchased := 0, productionMultipliers := [] }

/-- A `gold` balance of 30. -/
def resC3w : List Resource := [{ id := "gold", amount := 30, maxAmount := none }]

/-- A single attached ×2 multiplier with no target. -/
def gC10a : Generator := { gC2ex with productionMultipliers := [mulX2a] }

/-- The same generator, the multiplier now targeting `"gen"`. -/
def gC10b : Generator :=
  { gC2ex with productionMultipliers := [{ mulX2a with target := some "gen" }] }

/-- Two multipliers agreeing on everything except possibly `target`. -/
def MulSameExceptTarget (m m' : Multiplier) : Prop :=
  m.id = m'.id ∧ m.type = m'.type ∧ m.value = m'.value ∧ m.active = m'.active

/-- An upgrade with two flat costs charging the same resource. -/
def uC5 : Upgrade :=
  { id := "u", costs := [{ resourceId := "gold", amount := 60 },
      { resourceId := "gold", amount := 60 }],
    maxPurchases := 1, purchased := 0 }

/-- An upgrade with a single flat cost. -/
def uC5w : Upgrade :=
  { id := "u", costs := [{ resourceId := "gold", amount := 60 }],
    maxPurchases := 1, purchased := 0 }

/-- A `gold` balance of 100. -/
def resC5 : List Resource := [{ id := "gold", amount := 100, maxAmount := none }]

/-- An empty statistics record (session starting at time 0). -/
def statsInit : Statistics :=
  { totalResourcesEarned := [], totalResourcesSpent := [],
    totalGeneratorsPurchased := [], totalUpgradesPurchased := [],
    achievementsUnlocked := 0, totalClicks := 0, timePlayed := 0,
    sessionStartTime := 0 }

/-- A generator with negative base production (rate −1, one owned unit). -/
def gC7neg : Generator :=
  { id := "gen", producesResourceId := "gold", baseProductionRate := -1,
    costs := [], maxPurchases := none, purchased := 1,
    productionMultipliers := [] }

/-- An engine whose sole generator has production −1/s targeting `gold`. -/
def sC7 : EngineState :=
  { resources := [{ id := "gold", amount := 100, maxAmount := none }],
    generators := [gC7neg], upgrades := [], achievements := [],
    stats := statsInit }

/-- A generator producing 2 gold per second (rate 2, one owned unit). -/
def gC7w : Generator :=
  { id := "gen", producesResourceId := "gold", baseProductionRate := 2,
    costs := [], maxPurchases := none, purchased := 1,
    productionMultipliers := [] }

/-- A `gold` resource holding 5, no maximum. -/
def rGold5 : Resource := { id := "gold", amount := 5, maxAmount := none }

/-- A one-resource, one-generator engine with production 2/s. -/
def sC7w : EngineState :=
  { resources := [rGold5], generators := [gC7w], upgrades := [],
    achievements := [], stats := statsInit }

/-- An engine holding 50 gold and one already-purchased upgrade. -/
def sC8 : EngineState :=
  { resources := [{ id := "gold", amount := 50, maxAmount := none }],
    generators := [], upgrades := [{ uC5w with purchased := 1 }],
    achievements := [], stats := statsInit }

/-- Effects that add 100 to every resource on each invocation — a legal
upgrade effect closure that breaks save/load round-tripping. -/
def effC8bad : String → EngineState → EngineState :=
  fun _ st =>
    { st with resources := st.resources.map fun r => { r with amount := r.amount + 100 } }

/-- Identity effects (e.g. effects that only touch multiplier wiring would
also qualify): they preserve all observables. -/
def effC8id : String → EngineState → EngineState := fun _ st => st

/-- A generator with two cost schedules charging the same resource. -/
def gC1dup : Generator :=
  { id := "gen", producesResourceId := "r", baseProductionRate := 1,
    costs := [{ resourceId := "gold", baseAmount := 10, scalingFactor := 1 },
      { resourceId := "gold", baseAmount := 5, scalingFactor := 1 }],
    maxPurchases := none, purchased := 0, productionMultipliers := [] }

/-- A `gold` balance of 6. -/
def resG6 : List Resource := [{ id := "gold", amount := 6, maxAmount := none }]

/-- The specification's bulk-cost series for one cost schedule:
`Σ_{i=0}^{n-1} baseAmount × scalingFactor^(purchased+i)`. -/
def bulkSum (g : Generator) (c : GeneratorCost) (n : ℕ) : ℚ :=
  ∑ i ∈ Finset.range n, c.baseAmount * c.scalingFactor ^ (g.purchased + (i : ℤ))

end Idle

namespace Idle

/-! Helper lemmas. -/

/-- The affordability test of `canPurchase`, as a proposition. -/
lemma afford_match_iff (res : List Resource) (k : String) (v : ℚ) :
    (match findFirst Resource.id k res with
     | none => false
     | some r => r.canAfford v) = true ↔
      ∃ r, findFirst Resource.id k res = some r ∧ v ≤ r.amount := by
  cases h : findFirst Resource.id k res <;> simp [h, Resource.canAfford]

/-- `Generator.canPurchase` as a proposition: the max-purchase guard plus
per-entry affordability of the accumulated bulk-cost map. -/
lemma canPurchase_eq_true_iff (g : Generator) (res : List Resource) (q : ℤ) :
    g.canPurchase res q = true ↔
      (∀ m, g.maxPurchases = some m → g.purchased + q ≤ m) ∧
      ∀ p ∈ g.totalCost q.toNat,
        ∃ r, findFirst Resource.id p.1 res = some r ∧ p.2 ≤ r.amount := by
  unfold Generator.canPurchase
  cases hm : g.maxPurchases with
  | none =>
    simp only [hm, if_false, Bool.false_eq_true, List.all_eq_true]
    constructor
    · intro h
      exact ⟨by simp, fun p hp => (afford_match_iff res p.1 p.2).1 (h p hp)⟩
    · intro h p hp
      exact (afford_match_iff res p.1 p.2).2 (h.2 p hp)
  | some m =>
    by_cases hlt : m < g.purchased + q
    · constructor
      · intro h
        simp [hlt] at h
      · intro h
        exact absurd (h.1 m rfl) (not_le.2 hlt)
    · simp only [hm, hlt, decide_eq_true_eq, if_neg hlt, decide_False,
        Bool.false_eq_true, if_false, List.all_eq_true]
      constructor
      · intro h
        refine ⟨fun m' hm' => ?_, fun p hp => (afford_match_iff res p.1 p.2).1 (h p hp)⟩
        cases hm'
        exact not_lt.1 hlt
      · intro h p hp
        exact (afford_match_iff res p.1 p.2).2 (h.2 p hp)

end Idle

namespace Idle

/-- Iterated `check` computed in closed form: the final state is unlocked
iff it was already unlocked or some condition in the sequence held, the
number of `true` returns and of reward invocations are 0/1 indicators. -/
lemma runChecks_eq (a : Achievement) (conds : List Bool) :
    a.runChecks conds =
      ({ a with unlocked := a.unlocked || conds.any id },
       (if !a.unlocked && conds.any id then 1 else 0),
       (if !a.unlocked && a.hasReward && conds.any id then 1 else 0)) := by
  induction conds generalizing a with
  | nil => simp [Achievement.runChecks]
  | cons c cs ih =>
    obtain ⟨aid, ahr, aul⟩ := a
    cases aul with
    | true => simp [Achievement.runChecks, Achievement.check, ih]
    | false =>
      cases c with
      | true => simp [Achievement.runChecks, Achievement.check, ih]
      | false => simp [Achievement.runChecks, Achievement.check, ih]

/-- Claim C2: current production is `baseProductionRate × ownedCount`
folded left-to-right through the attached multipliers in attachment
order — active additive ones add their value, active multiplicative ones
multiply by it, inactive ones are skipped; in particular base production
10, owned count 1 and two active ×2 multiplicative multipliers give
`((10×1)×2)×2 = 40`. -/
theorem C2_production_fold :
    (∀ g : Generator,
      g.getCurrentProduction =
        g.productionMultipliers.foldl
          (fun v m =>
            if m.active then
              match m.type with
              | .additive => v + m.value
              | .multiplicative => v * m.value
            else v)
          (g.baseProductionRate * (g.purchased : ℚ))) ∧
    gC2ex.getCurrentProduction = 40 := by
  constructor
  · intro g
    unfold Generator.getCurrentProduction
    congr 1
    funext v m
    cases ha : m.active <;> cases ht : m.type <;> simp [ha, ht, Multiplier.apply]
  · simp [Generator.getCurrentProduction, gC2ex, mulX2a, mulX2b, Multiplier.apply]
    norm_num

/-- Claim C4: `subtract(v)` succeeds exactly when `v ≤ amount` held before
the call; on success the amount afterwards is the amount before minus
`v`, on failure the resource is returned unchanged. -/
theorem C4_subtract_gate (r : Resource) (v : ℚ) :
    ((r.subtract v).1 = true ↔ v ≤ r.amount) ∧
    (r.subtract v).2 =
      (if v ≤ r.amount then { r with amount := r.amount - v } else r) := by
  unfold Resource.subtract
  by_cases h : v ≤ r.amount <;> simp [h]

/-- Claim C6: over any sequence of `check()` calls, `check` returns `true`
at most once, the reward callback fires exactly once when the achievement
starts locked, has a reward and the condition holds at some call
(and never again afterwards), and once unlocked every later `check` is a
no-op returning `false` — the run is fully described by the indicator
closed form. -/
theorem C6_check_at_most_once (a : Achievement) (conds : List Bool) :
    a.runChecks conds =
      ({ a with unlocked := a.unlocked || conds.any id },
       (if !a.unlocked && conds.any id then 1 else 0),
       (if !a.unlocked && a.hasReward && conds.any id then 1 else 0)) ∧
    (a.runChecks conds).2.1 ≤ 1 := by
  refine ⟨runChecks_eq a conds, ?_⟩
  rw [runChecks_eq a conds]
  by_cases h : (!a.unlocked && conds.any id) = true <;> simp [h]

/-- Claim C9 (amended to nonnegative quantities): purchasing any quantity
`q ≥ 0` from a state with `0 ≤ purchased` (and `purchased ≤ max` when a
maximum is set) leaves `0 ≤ purchased` (and `purchased ≤ max`). -/
theorem C9_owned_invariant (g : Generator) (res : List Resource) (q : ℤ)
    (hq : 0 ≤ q) (h0 : 0 ≤ g.purchased)
    (hmax : ∀ m, g.maxPurchases = some m → g.purchased ≤ m) :
    0 ≤ ((g.purchase res q).2.1).purchased ∧
      ∀ m, ((g.purchase res q).2.1).maxPurchases = some m →
        ((g.purchase res q).2.1).purchased ≤ m := by
  unfold Generator.purchase
  cases hc : g.canPurchase res q with
  | false => simpa [hc] using ⟨h0, hmax⟩
  | true =>
    have h := (canPurchase_eq_true_iff g res q).1 hc
    simp only [hc, Bool.not_true, Bool.false_eq_true, if_false]
    exact ⟨add_nonneg h0 hq, fun m hm => h.1 m hm⟩

/-- Claim C9 fails as stated for negative quantities: with no maximum set
and quantity `-1`, the cost loop runs zero times, `canPurchase` passes,
and `purchase` succeeds, driving the owned count to `-1 < 0`. -/
theorem C9_counterexample :
    (gC9ex.purchase [] (-1)).1 = true ∧
    ((gC9ex.purchase [] (-1)).2.1).purchased = -1 ∧ ¬ (0:ℤ) ≤ -1 := by
  refine ⟨?_, ?_, by decide⟩ <;>
    simp [Generator.purchase, Generator.canPurchase, Generator.totalCost, gC9ex]

/-- Witness for claim C9: quantity 2 bought from a fresh generator keeps
the owned-count invariant. -/
theorem C9_witness :
    ((0:ℤ) ≤ 2 ∧ (0:ℤ) ≤ gC9ex.purchased ∧
      (∀ m, gC9ex.maxPurchases = some m → gC9ex.purchased ≤ m)) ∧
    (0 ≤ ((gC9ex.purchase [] 2).2.1).purchased ∧
      ∀ m, ((gC9ex.purchase [] 2).2.1).maxPurchases = some m →
        ((gC9ex.purchase [] 2).2.1).purchased ≤ m) :=
  ⟨⟨by decide, by decide, by simp [gC9ex]⟩,
   C9_owned_invariant gC9ex [] 2 (by decide) (by decide) (by simp [gC9ex])⟩

/-- Folding the production step over multiplier lists that agree except on
targets produces the same value from any start. -/
lemma prodFold_congr {l l' : List Multiplier}
    (hm : List.Forall₂ MulSameExceptTarget l l') (v : ℚ) :
    l.foldl (fun production m => if m.active then m.apply production else production) v =
    l'.foldl (fun production m => if m.active then m.apply production else production) v := by
  induction hm generalizing v with
  | nil => rfl
  | cons h _ ih =>
    rename_i a b t t' _
    simp only [List.foldl_cons]
    obtain ⟨-, ht, hv, hac⟩ := h
    have hstep : (if a.active then a.apply v else v) =
        (if b.active then b.apply v else v) := by
      cases htb : b.type <;> simp [Multiplier.apply, hac, ht, hv, htb]
    rw [hstep]
    exact ih _

/-- Claim C10: `getCurrentProduction` ignores the `target` field of the
attached multipliers — generators agreeing on base rate, owned count and
on every multiplier except possibly its target produce the same value. -/
theorem C10_target_irrelevant (g g' : Generator)
    (hb : g.baseProductionRate = g'.baseProductionRate)
    (hp : g.purchased = g'.purchased)
    (hm : List.Forall₂ MulSameExceptTarget
      g.productionMultipliers g'.productionMultipliers) :
    g.getCurrentProduction = g'.getCurrentProduction := by
  unfold Generator.getCurrentProduction
  rw [hb, hp]
  exact prodFold_congr hm _

/-- Witness for claim C10: the same ×2 multiplier with and without a
target yields the same production. -/
theorem C10_witness :
    (gC10a.baseProductionRate = gC10b.baseProductionRate ∧
     gC10a.purchased = gC10b.purchased ∧
     List.Forall₂ MulSameExceptTarget
       gC10a.productionMultipliers gC10b.productionMultipliers) ∧
    gC10a.getCurrentProduction = gC10b.getCurrentProduction :=
  ⟨⟨rfl, rfl, by simp [gC10a, gC10b, gC2ex, mulX2a, MulSameExceptTarget]⟩,
   C10_target_irrelevant gC10a gC10b rfl rfl
     (by simp [gC10a, gC10b, gC2ex, mulX2a, MulSameExceptTarget])⟩

end Idle

namespace Idle

/-- Lookup after `mapSet`: the set key reads back the new value, others are
unchanged. -/
lemma mapGetD0_mapSet (m : List (String × ℚ)) (k : String) (v : ℚ) (k' : String) :
    mapGetD0 (mapSet m k v) k' = if k = k' then v else mapGetD0 m k' := by
  induction m with
  | nil => simp [mapSet, mapGetD0]
  | cons hd tl ih =>
    obtain ⟨a, b⟩ := hd
    by_cases hak : a = k
    · subst hak
      by_cases h : a = k' <;> simp [mapSet, mapGetD0, h]
    · by_cases h : a = k'
      · subst h
        have hka : ¬ k = a := fun e => hak e.symm
        simp [mapSet, mapGetD0, hak, hka]
      · simp [mapSet, mapGetD0, hak, h, ih]

/-- Every entry of `mapSet m k v` comes from `m` or is the inserted pair. -/
lemma mem_mapSet {m : List (String × ℚ)} {k : String} {v : ℚ} {p : String × ℚ}
    (hp : p ∈ mapSet m k v) : p ∈ m ∨ p = (k, v) := by
  induction m generalizing p with
  | nil =>
    right
    simpa [mapSet] using hp
  | cons hd tl ih =>
    obtain ⟨a, b⟩ := hd
    by_cases hak : a = k
    · subst hak
      simp only [mapSet, if_pos rfl] at hp
      rcases List.mem_cons.1 hp with h1 | h1
      · right; exact h1
      · left; exact List.mem_cons_of_mem _ h1
    · simp only [mapSet, if_neg hak] at hp
      rcases List.mem_cons.1 hp with h1 | h1
      · left
        rw [h1]
        exact List.mem_cons_self _ _
      · rcases ih h1 with h2 | h2
        · left; exact List.mem_cons_of_mem _ h2
        · right; exact h2

/-- Key membership after `mapSet`. -/
lemma mem_keys_mapSet {m : List (String × ℚ)} {k : String} {v : ℚ} {a : String} :
    a ∈ (mapSet m k v).map Prod.fst ↔ a ∈ m.map Prod.fst ∨ a = k := by
  induction m with
  | nil => simp [mapSet]
  | cons hd tl ih =>
    obtain ⟨x, y⟩ := hd
    by_cases hxk : x = k
    · subst hxk
      simp [mapSet, ih]
      tauto
    · simp [mapSet, hxk, ih]
      tauto

/-- `mapSet` preserves distinctness of keys. -/
lemma nodup_keys_mapSet {m : List (String × ℚ)} {k : String} {v : ℚ}
    (h : (m.map Prod.fst).Nodup) : ((mapSet m k v).map Prod.fst).Nodup := by
  induction m with
  | nil => simp [mapSet]
  | cons hd tl ih =>
    obtain ⟨x, y⟩ := hd
    simp only [List.map_cons, List.nodup_cons] at h
    by_cases hxk : x = k
    · subst hxk
      simpa [mapSet, List.nodup_cons] using h
    · simp only [mapSet, if_neg hxk, List.map_cons, List.nodup_cons]
      refine ⟨fun hx => ?_, ih h.2⟩
      rcases mem_keys_mapSet.1 hx with h' | h'
      · exact h.1 h'
      · exact hxk h'

/-- With distinct keys, a stored entry reads back by lookup. -/
lemma mapGetD0_of_mem {m : List (String × ℚ)} {k : String} {v : ℚ}
    (hnd : (m.map Prod.fst).Nodup) (hm : (k, v) ∈ m) : mapGetD0 m k = v := by
  induction m with
  | nil => cases hm
  | cons hd tl ih =>
    obtain ⟨a, b⟩ := hd
    simp only [List.map_cons, List.nodup_cons] at hnd
    rcases List.mem_cons.1 hm with h | h
    · cases h
      simp [mapGetD0]
    · have hak : a ≠ k := by
        intro hak
        exact hnd.1 (hak ▸ List.mem_map_of_mem Prod.fst h)
      simp [mapGetD0, hak, ih hnd.2 h]

/-- A present key's looked-up value is stored as an entry. -/
lemma mem_of_mem_keys {m : List (String × ℚ)} {k : String}
    (hk : k ∈ m.map Prod.fst) : (k, mapGetD0 m k) ∈ m := by
  induction m with
  | nil => cases hk
  | cons hd tl ih =>
    obtain ⟨a, b⟩ := hd
    by_cases hak : a = k
    · subst hak
      simp [mapGetD0]
    · simp only [List.map_cons, List.mem_cons] at hk
      rcases hk with h | h
      · exact absurd h.symm hak
      · simp only [mapGetD0, if_neg hak]
        exact List.mem_cons_of_mem _ (ih h)

end Idle

namespace Idle

/-- `sumVals` on a cons. -/
lemma sumVals_cons (a : String) (b : ℚ) (tl : List (String × ℚ)) (k : String) :
    sumVals ((a, b) :: tl) k =
      if a = k then b + sumVals tl k else sumVals tl k := by
  by_cases h : a = k <;> simp [sumVals, List.filter_cons, h]

/-- Lookup distributes over entrywise map addition. -/
lemma mapGetD0_addInto (m acc : List (String × ℚ)) (k : String) :
    mapGetD0 (addInto acc m) k = mapGetD0 acc k + sumVals m k := by
  induction m generalizing acc with
  | nil => simp [addInto, sumVals]
  | cons hd tl ih =>
    obtain ⟨a, b⟩ := hd
    have step : addInto acc ((a, b) :: tl) =
        addInto (mapSet acc a (mapGetD0 acc a + b)) tl := by
      simp [addInto]
    rw [step, ih, mapGetD0_mapSet, sumVals_cons]
    by_cases h : a = k <;> simp [h] <;> ring

/-- Entrywise addition only grows the key set. -/
lemma mem_keys_addInto_of_mem {acc : List (String × ℚ)} (m : List (String × ℚ))
    {k : String} (hk : k ∈ acc.map Prod.fst) :
    k ∈ (addInto acc m).map Prod.fst := by
  induction m generalizing acc with
  | nil => simpa [addInto] using hk
  | cons hd tl ih =>
    obtain ⟨a, b⟩ := hd
    have step : addInto acc ((a, b) :: tl) =
        addInto (mapSet acc a (mapGetD0 acc a + b)) tl := by
      simp [addInto]
    rw [step]
    exact ih (mem_keys_mapSet.2 (Or.inl hk))

/-- Key membership in an entrywise addition. -/
lemma mem_keys_addInto {acc m : List (String × ℚ)} {k : String} :
    k ∈ (addInto acc m).map Prod.fst ↔
      k ∈ acc.map Prod.fst ∨ k ∈ m.map Prod.fst := by
  induction m generalizing acc with
  | nil => simp [addInto]
  | cons hd tl ih =>
    obtain ⟨a, b⟩ := hd
    have step : addInto acc ((a, b) :: tl) =
        addInto (mapSet acc a (mapGetD0 acc a + b)) tl := by
      simp [addInto]
    rw [step, ih, mem_keys_mapSet]
    simp only [List.map_cons, List.mem_cons]
    tauto

/-- Entrywise addition preserves distinctness of keys. -/
lemma nodup_keys_addInto {acc : List (String × ℚ)} (m : List (String × ℚ))
    (h : (acc.map Prod.fst).Nodup) : ((addInto acc m).map Prod.fst).Nodup := by
  induction m generalizing acc with
  | nil => simpa [addInto] using h
  | cons hd tl ih =>
    obtain ⟨a, b⟩ := hd
    have step : addInto acc ((a, b) :: tl) =
        addInto (mapSet acc a (mapGetD0 acc a + b)) tl := by
      simp [addInto]
    rw [step]
    exact ih (nodup_keys_mapSet h)

/-- The bulk-cost map at quantity 0 is empty. -/
lemma totalCost_zero (g : Generator) : g.totalCost 0 = [] := rfl

/-- One more unit adds the single-unit cost map at the next owned count. -/
lemma totalCost_succ (g : Generator) (q : ℕ) :
    g.totalCost (q + 1) =
      addInto (g.totalCost q) (g.getCurrentCostsForPurchase (g.purchased + (q : ℤ))) := by
  simp [Generator.totalCost, addInto, List.range_succ]

/-- The bulk-cost map always has distinct keys. -/
lemma nodup_keys_totalCost (g : Generator) (q : ℕ) :
    ((g.totalCost q).map Prod.fst).Nodup := by
  induction q with
  | zero => simp [totalCost_zero]
  | succ q ih => rw [totalCost_succ]; exact nodup_keys_addInto _ ih

/-- Keys only appear as quantity grows. -/
lemma mem_keys_totalCost_mono (g : Generator) {q q' : ℕ} (h : q ≤ q') {k : String}
    (hk : k ∈ (g.totalCost q).map Prod.fst) :
    k ∈ (g.totalCost q').map Prod.fst := by
  induction q' with
  | zero =>
    have : q = 0 := Nat.le_zero.1 h
    exact this ▸ hk
  | succ n ih =>
    rcases Nat.le_succ_iff.1 h with h' | h'
    · rw [totalCost_succ]
      exact mem_keys_addInto_of_mem _ (ih h')
    · subst h'
      exact hk

/-- Every entry of a fold of `mapSet` insertions comes from the
accumulator or from one of the inserted pairs. -/
lemma mem_foldl_mapSet {β : Type} (fk : β → String) (fv : β → ℚ) :
    ∀ (l : List β) (acc : List (String × ℚ)) (p : String × ℚ),
      p ∈ l.foldl (fun m c => mapSet m (fk c) (fv c)) acc →
      p ∈ acc ∨ ∃ c ∈ l, p = (fk c, fv c) := by
  intro l
  induction l with
  | nil =>
    intro acc p hp
    exact Or.inl hp
  | cons c0 tl ih =>
    intro acc p hp
    simp only [List.foldl_cons] at hp
    rcases ih _ p hp with h | h
    · rcases mem_mapSet h with h' | h'
      · exact Or.inl h'
      · exact Or.inr ⟨c0, List.mem_cons_self _ _, h'⟩
    · rcases h with ⟨c, hc, hpc⟩
      exact Or.inr ⟨c, List.mem_cons_of_mem _ hc, hpc⟩

/-- Every entry of the single-unit cost map is some schedule's price at
that owned count. -/
lemma mem_getCurrentCostsForPurchase {g : Generator} {e : ℤ} {p : String × ℚ}
    (hp : p ∈ g.getCurrentCostsForPurchase e) :
    ∃ c ∈ g.costs, p = (c.resourceId, c.baseAmount * c.scalingFactor ^ e) := by
  have := mem_foldl_mapSet (fun c : GeneratorCost => c.resourceId)
    (fun c : GeneratorCost => c.baseAmount * c.scalingFactor ^ e) g.costs [] p hp
  rcases this with h | h
  · cases h
  · exact h

/-- All summed values under a key are nonnegative when all entries are. -/
lemma sumVals_nonneg {m : List (String × ℚ)} (h : ∀ p ∈ m, 0 ≤ p.2) (k : String) :
    0 ≤ sumVals m k := by
  induction m with
  | nil => simp [sumVals]
  | cons hd tl ih =>
    obtain ⟨a, b⟩ := hd
    rw [sumVals_cons]
    have hb := h (a, b) (List.mem_cons_self _ _)
    have htl := ih fun p hp => h p (List.mem_cons_of_mem _ hp)
    by_cases hak : a = k <;> simp [hak]
    · positivity
    · exact htl

end Idle

namespace Idle

/-- With every scaling factor ≥ 1 and every base amount ≥ 0, per-key bulk
cost totals are monotone in the quantity. -/
lemma mapGetD0_totalCost_mono (g : Generator)
    (hc : ∀ c ∈ g.costs, 1 ≤ c.scalingFactor ∧ 0 ≤ c.baseAmount)
    {q q' : ℕ} (h : q ≤ q') (k : String) :
    mapGetD0 (g.totalCost q) k ≤ mapGetD0 (g.totalCost q') k := by
  induction q' with
  | zero =>
    have hq : q = 0 := Nat.le_zero.1 h
    subst hq
    exact le_refl _
  | succ n ih =>
    rcases Nat.le_succ_iff.1 h with h' | h'
    · refine le_trans (ih h') ?_
      rw [totalCost_succ, mapGetD0_addInto]
      refine le_add_of_nonneg_right (sumVals_nonneg ?_ k)
      intro p hp
      obtain ⟨c, hcm, hpc⟩ := mem_getCurrentCostsForPurchase hp
      obtain ⟨hsf, hb⟩ := hc c hcm
      rw [hpc]
      exact mul_nonneg hb (zpow_nonneg (le_trans zero_le_one hsf) _)
    · subst h'
      exact le_refl _

/-- With the owned count within bounds, quantity 0 is always purchasable
(the accumulation loop never runs, so the cost map is empty). -/
lemma canPurchase_zero (g : Generator) (res : List Resource)
    (hmax : ∀ m, g.maxPurchases = some m → g.purchased ≤ m) :
    g.canPurchase res 0 = true := by
  rw [canPurchase_eq_true_iff]
  constructor
  · intro m hm
    simpa using hmax m hm
  · intro p hp
    simp [totalCost_zero] at hp

/-- Under nonnegative geometric costs, affordability is antitone in the
quantity: whatever is affordable at `n` is affordable at any `0 ≤ m ≤ n`. -/
lemma canPurchase_antitone (g : Generator) (res : List Resource)
    (hc : ∀ c ∈ g.costs, 1 ≤ c.scalingFactor ∧ 0 ≤ c.baseAmount)
    {m n : ℤ} (h0 : 0 ≤ m) (hmn : m ≤ n)
    (hn : g.canPurchase res n = true) : g.canPurchase res m = true := by
  rw [canPurchase_eq_true_iff] at hn ⊢
  constructor
  · intro mx hmx
    have := hn.1 mx hmx
    omega
  · intro p hp
    have hk : p.1 ∈ (g.totalCost m.toNat).map Prod.fst :=
      List.mem_map_of_mem Prod.fst hp
    have hv : mapGetD0 (g.totalCost m.toNat) p.1 = p.2 :=
      mapGetD0_of_mem (nodup_keys_totalCost g _) hp
    have hk' : p.1 ∈ (g.totalCost n.toNat).map Prod.fst :=
      mem_keys_totalCost_mono g (Int.toNat_le_toNat hmn) hk
    obtain ⟨r, hr, hle⟩ := hn.2 _ (mem_of_mem_keys hk')
    refine ⟨r, hr, le_trans ?_ hle⟩
    rw [← hv]
    exact mapGetD0_totalCost_mono g hc (Int.toNat_le_toNat hmn) p.1

/-- Antitone affordability in contrapositive form. -/
lemma canPurchase_false_mono (g : Generator) (res : List Resource)
    (hc : ∀ c ∈ g.costs, 1 ≤ c.scalingFactor ∧ 0 ≤ c.baseAmount)
    {m n : ℤ} (h0 : 0 ≤ m) (hmn : m ≤ n)
    (hm : g.canPurchase res m = false) : g.canPurchase res n = false := by
  cases hx : g.canPurchase res n with
  | false => rfl
  | true =>
    have := canPurchase_antitone g res hc h0 hmn hx
    rw [this] at hm
    cases hm

/-- Correctness of the binary-search loop over the antitone affordability
predicate: starting from a well-formed interval it returns the largest
purchasable quantity in `[0, ceil]`. -/
lemma bsearch_correct (g : Generator) (res : List Resource)
    (hc : ∀ c ∈ g.costs, 1 ≤ c.scalingFactor ∧ 0 ≤ c.baseAmount)
    (ceil : ℤ) (hceil : 0 ≤ ceil) (hP0 : g.canPurchase res 0 = true) :
    ∀ (fuel : ℕ) (left right result : ℤ),
      (right + 1 - left).toNat + 1 ≤ fuel →
      0 ≤ left → right ≤ ceil → 0 ≤ result → result ≤ ceil →
      ((result = left - 1 ∧ g.canPurchase res result = true) ∨
        (left = 0 ∧ result = 0)) →
      (∀ n, right < n → n ≤ ceil → g.canPurchase res n = false) →
      g.canPurchase res (g.bsearch res fuel left right result) = true ∧
      0 ≤ g.bsearch res fuel left right result ∧
      g.bsearch res fuel left right result ≤ ceil ∧
      (g.bsearch res fuel left right result = ceil ∨
        g.canPurchase res (g.bsearch res fuel left right result + 1) = false) ∧
      ∀ n, 0 ≤ n → n ≤ ceil → g.canPurchase res n = true →
        n ≤ g.bsearch res fuel left right result := by
  intro fuel
  induction fuel with
  | zero =>
    intro left right result hfuel
    omega
  | succ fuel ih =>
    intro left right result hfuel hl hr hres0 hresc hinv hfals
    by_cases hlr : left ≤ right
    · have hmid : left ≤ Int.fdiv (left + right) 2 ∧
          Int.fdiv (left + right) 2 ≤ right := by
        rw [Int.fdiv_eq_ediv _ (by norm_num)]
        omega
      set mid := Int.fdiv (left + right) 2 with hmiddef
      have hstep : g.bsearch res (fuel + 1) left right result =
          (if g.canPurchase res mid = true then
            g.bsearch res fuel (mid + 1) right mid
          else g.bsearch res fuel left (mid - 1) result) := by
        simp only [Generator.bsearch, if_pos hlr]
      cases hPmid : g.canPurchase res mid with
      | true =>
        rw [hstep, if_pos hPmid]
        exact ih (mid + 1) right mid (by omega) (by omega) hr (by omega)
          (by omega) (Or.inl ⟨by omega, hPmid⟩) hfals
      | false =>
        rw [hstep, if_neg (by simp [hPmid])]
        refine ih left (mid - 1) result (by omega) hl (by omega) hres0 hresc hinv ?_
        intro n h1 h2
        exact canPurchase_false_mono g res hc (by omega) (by omega) hPmid
      -- done with the recursive cases
    · have hstep : g.bsearch res (fuel + 1) left right result = result := by
        simp only [Generator.bsearch, if_neg hlr]
      rcases hinv with ⟨hres, hPres⟩ | ⟨hl0, hr0⟩
      · rw [hstep]
        refine ⟨hPres, hres0, hresc, ?_, ?_⟩
        · by_cases hrc : result + 1 ≤ ceil
          · exact Or.inr (hfals (result + 1) (by omega) hrc)
          · exact Or.inl (by omega)
        · intro n hn0 hnc hPn
          by_contra hgt
          have : g.canPurchase res n = false := hfals n (by omega) hnc
          rw [hPn] at this
          cases this
      · subst hl0
        have : g.canPurchase res 0 = false := hfals 0 (by omega) hceil
        rw [hP0] at this
        cases this

end Idle

namespace Idle

/-- Claim C3 (amended: every `scalingFactor ≥ 1` AND every
`baseAmount ≥ 0`, owned count within bounds): `getMaxAffordable` returns
the largest `n` within the search ceiling (remaining room under
`maxPurchases`, else the sentinel 1000) with `canPurchase n` true; the
returned `n` is purchasable and `n + 1` is not, unless `n` is the
ceiling. -/
theorem C3_maxAffordable (g : Generator) (res : List Resource)
    (hc : ∀ c ∈ g.costs, 1 ≤ c.scalingFactor ∧ 0 ≤ c.baseAmount)
    (hmax : ∀ m, g.maxPurchases = some m → g.purchased ≤ m) :
    g.canPurchase res (g.getMaxAffordable res) = true ∧
    0 ≤ g.getMaxAffordable res ∧
    g.getMaxAffordable res ≤ g.maxCheckOf ∧
    (g.getMaxAffordable res = g.maxCheckOf ∨
      g.canPurchase res (g.getMaxAffordable res + 1) = false) ∧
    ∀ n : ℤ, 0 ≤ n → n ≤ g.maxCheckOf → g.canPurchase res n = true →
      n ≤ g.getMaxAffordable res := by
  have hceil : 0 ≤ g.maxCheckOf := by
    cases hm : g.maxPurchases with
    | none =>
      simp [Generator.maxCheckOf, hm]
    | some m =>
      have := hmax m hm
      simp only [Generator.maxCheckOf, hm]
      omega
  have hP0 : g.canPurchase res 0 = true := canPurchase_zero g res hmax
  have h := bsearch_correct g res hc g.maxCheckOf hceil hP0
    (g.maxCheckOf + 2).toNat 0 g.maxCheckOf 0 (by omega) le_rfl le_rfl le_rfl
    hceil (Or.inr ⟨rfl, rfl⟩) (fun n h1 h2 => absurd h2 (not_le.2 h1))
  simpa [Generator.getMaxAffordable] using h

end Idle

namespace Idle

/-- One unrolling of the search loop when the probe is affordable. -/
lemma bsearch_step_true (g : Generator) (res : List Resource) (fuel : ℕ)
    (l r result mid : ℤ) (hlr : l ≤ r) (hmid : Int.fdiv (l + r) 2 = mid)
    (hP : g.canPurchase res mid = true) :
    g.bsearch res (fuel + 1) l r result = g.bsearch res fuel (mid + 1) r mid := by
  simp only [Generator.bsearch]
  rw [if_pos hlr, hmid, hP]
  simp

/-- One unrolling of the search loop when the probe is not affordable. -/
lemma bsearch_step_false (g : Generator) (res : List Resource) (fuel : ℕ)
    (l r result mid : ℤ) (hlr : l ≤ r) (hmid : Int.fdiv (l + r) 2 = mid)
    (hP : g.canPurchase res mid = false) :
    g.bsearch res (fuel + 1) l r result = g.bsearch res fuel l (mid - 1) result := by
  simp only [Generator.bsearch]
  rw [if_pos hlr, hmid, hP]
  simp

/-- The search loop stops when the interval is empty. -/
lemma bsearch_stop (g : Generator) (res : List Resource) (fuel : ℕ)
    (l r result : ℤ) (hlr : ¬ l ≤ r) :
    g.bsearch res (fuel + 1) l r result = result := by
  simp only [Generator.bsearch]
  rw [if_neg hlr]

/-- The single-unit cost map of the negative-base example generator. -/
lemma gC3ex_costsFor (e : ℤ) :
    gC3ex.getCurrentCostsForPurchase e = [("gold", -10)] := by
  simp [Generator.getCurrentCostsForPurchase, gC3ex, mapSet, one_zpow]

/-- Bulk cost of the negative-base example generator in closed form. -/
lemma gC3ex_totalCost (q : ℕ) :
    gC3ex.totalCost q = if q = 0 then [] else [("gold", -10 * (q : ℚ))] := by
  induction q with
  | zero => rfl
  | succ n ih =>
    rw [totalCost_succ, ih, gC3ex_costsFor]
    by_cases hn : n = 0
    · subst hn
      simp [addInto, mapSet, mapGetD0]
    · simp only [if_neg hn, if_neg (Nat.succ_ne_zero n)]
      simp [addInto, mapSet, mapGetD0]
      push_cast
      ring

/-- The search ceiling of the example generator. -/
lemma gC3ex_maxCheck : gC3ex.maxCheckOf = 4 := by
  simp [Generator.maxCheckOf, gC3ex]

/-- Quantity 0 is purchasable in the example. -/
lemma gC3ex_cp0 : gC3ex.canPurchase resC3ex 0 = true := by
  refine canPurchase_zero gC3ex resC3ex ?_
  intro m hm
  simp [gC3ex] at hm
  simp [gC3ex, ← hm]

/-- Quantity 1 is not affordable in the example (cost −10 vs balance −35). -/
lemma gC3ex_cp1 : gC3ex.canPurchase resC3ex 1 = false := by
  have h : ¬ (gC3ex.canPurchase resC3ex 1 = true) := by
    rw [canPurchase_eq_true_iff]
    intro hcon
    have hm : (("gold", (-10 : ℚ)) ∈ gC3ex.totalCost (1 : ℤ).toNat) := by
      rw [show ((1 : ℤ).toNat) = 1 from rfl, gC3ex_totalCost]
      norm_num
    obtain ⟨r, hr, hle⟩ := hcon.2 _ hm
    simp [resC3ex, findFirst] at hr
    rw [← hr] at hle
    norm_num at hle
  simpa using h

/-- Quantity 2 is not affordable in the example (cost −20 vs balance −35). -/
lemma gC3ex_cp2 : gC3ex.canPurchase resC3ex 2 = false := by
  have h : ¬ (gC3ex.canPurchase resC3ex 2 = true) := by
    rw [canPurchase_eq_true_iff]
    intro hcon
    have hm : (("gold", (-20 : ℚ)) ∈ gC3ex.totalCost (2 : ℤ).toNat) := by
      rw [show ((2 : ℤ).toNat) = 2 from rfl, gC3ex_totalCost]
      norm_num
    obtain ⟨r, hr, hle⟩ := hcon.2 _ hm
    simp [resC3ex, findFirst] at hr
    rw [← hr] at hle
    norm_num at hle
  simpa using h

/-- Quantity 4 is affordable in the example (cost −40 vs balance −35). -/
lemma gC3ex_cp4 : gC3ex.canPurchase resC3ex 4 = true := by
  rw [canPurchase_eq_true_iff]
  constructor
  · intro m hm
    have h4 : m = 4 := by
      simp [gC3ex] at hm
      omega
    simp [gC3ex, h4]
  · intro p hp
    rw [show ((4 : ℤ).toNat) = 4 from rfl, gC3ex_totalCost] at hp
    simp at hp
    subst hp
    refine ⟨{ id := "gold", amount := -35, maxAmount := none },
      by simp [resC3ex, findFirst], ?_⟩
    norm_num

/-- Claim C3 fails as stated (without a sign restriction on `baseAmount`):
for a cost schedule with `baseAmount = -10`, `scalingFactor = 1` and a
balance of `-35`, affordability is not antitone, the binary search returns
0, yet quantity 4 — within the ceiling 4 — is purchasable, so the result
is not the largest purchasable quantity. -/
theorem C3_counterexample :
    gC3ex.getMaxAffordable resC3ex = 0 ∧
    gC3ex.canPurchase resC3ex 4 = true ∧
    gC3ex.maxCheckOf = 4 ∧ ¬ ((4 : ℤ) ≤ 0) := by
  refine ⟨?_, gC3ex_cp4, gC3ex_maxCheck, by decide⟩
  have htrace : gC3ex.bsearch resC3ex 6 0 4 0 = 0 := by
    calc gC3ex.bsearch resC3ex 6 0 4 0
        = gC3ex.bsearch resC3ex 5 0 1 0 :=
          bsearch_step_false gC3ex resC3ex 5 0 4 0 2 (by decide) (by decide) gC3ex_cp2
      _ = gC3ex.bsearch resC3ex 4 1 1 0 :=
          bsearch_step_true gC3ex resC3ex 4 0 1 0 0 (by decide) (by decide) gC3ex_cp0
      _ = gC3ex.bsearch resC3ex 3 1 0 0 :=
          bsearch_step_false gC3ex resC3ex 3 1 1 0 1 (by decide) (by decide) gC3ex_cp1
      _ = 0 := bsearch_stop gC3ex resC3ex 2 1 0 0 (by decide)
  have hgoal : gC3ex.getMaxAffordable resC3ex =
      gC3ex.bsearch resC3ex 6 0 4 0 := by
    simp only [Generator.getMaxAffordable, gC3ex_maxCheck]
    rfl
  rw [hgoal, htrace]

/-- Witness for claim C3: cost `10·2^k`, max 3 purchases, balance 30 — the
amended hypotheses hold and the theorem applies. -/
theorem C3_witness :
    ((∀ c ∈ gC3w.costs, 1 ≤ c.scalingFactor ∧ 0 ≤ c.baseAmount) ∧
     (∀ m, gC3w.maxPurchases = some m → gC3w.purchased ≤ m)) ∧
    (gC3w.canPurchase resC3w (gC3w.getMaxAffordable resC3w) = true ∧
     0 ≤ gC3w.getMaxAffordable resC3w ∧
     gC3w.getMaxAffordable resC3w ≤ gC3w.maxCheckOf ∧
     (gC3w.getMaxAffordable resC3w = gC3w.maxCheckOf ∨
       gC3w.canPurchase resC3w (gC3w.getMaxAffordable resC3w + 1) = false) ∧
     ∀ n : ℤ, 0 ≤ n → n ≤ gC3w.maxCheckOf →
       gC3w.canPurchase resC3w n = true → n ≤ gC3w.getMaxAffordable resC3w) :=
  ⟨⟨by
      intro c hc
      simp [gC3w] at hc
      rw [hc]
      norm_num,
    by
      intro m hm
      simp [gC3w] at hm
      simp [gC3w, ← hm]⟩,
   C3_maxAffordable gC3w resC3w
     (by
       intro c hc
       simp [gC3w] at hc
       rw [hc]
       norm_num)
     (by
       intro m hm
       simp [gC3w] at hm
       simp [gC3w, ← hm])⟩

end Idle

namespace Idle

/-- `Resource.subtract` never changes the id. -/
lemma subtract_id (r : Resource) (v : ℚ) : ((r.subtract v).2).id = r.id := by
  unfold Resource.subtract
  split_ifs <;> rfl

/-- Updating under a different key does not change what a lookup sees. -/
lemma findFirst_updateFirst_ne {α : Type} (key : α → String) (f : α → α)
    {k k' : String} (h : k ≠ k') (hf : ∀ x, key (f x) = key x)
    (l : List α) :
    findFirst key k (updateFirst key f k' l) = findFirst key k l := by
  induction l with
  | nil => rfl
  | cons x rest ih =>
    simp only [updateFirst]
    by_cases hx : key x = k'
    · rw [if_pos hx]
      have h1 : key (f x) ≠ k := by
        rw [hf x, hx]
        exact fun e => h e.symm
      have h2 : key x ≠ k := by
        rw [hx]
        exact fun e => h e.symm
      simp only [findFirst]
      rw [if_neg h1, if_neg h2]
    · rw [if_neg hx]
      simp only [findFirst]
      by_cases hxk : key x = k
      · rw [if_pos hxk, if_pos hxk]
      · rw [if_neg hxk, if_neg hxk, ih]

/-- Updating under a key transforms exactly what a lookup of that key sees. -/
lemma findFirst_updateFirst_self {α : Type} (key : α → String) (f : α → α)
    (hf : ∀ x, key (f x) = key x) (k : String) (l : List α) :
    findFirst key k (updateFirst key f k l) = Option.map f (findFirst key k l) := by
  induction l with
  | nil => rfl
  | cons x rest ih =>
    simp only [updateFirst]
    by_cases hx : key x = k
    · rw [if_pos hx]
      simp only [findFirst]
      rw [if_pos (by rw [hf x]; exact hx), if_pos hx]
      rfl
    · rw [if_neg hx]
      simp only [findFirst]
      rw [if_neg hx, if_neg hx, ih]

/-- A fold of keyed updates whose keys avoid `k` leaves lookups of `k`
untouched. -/
lemma findFirst_foldl_update_not_mem {α β : Type} (key : α → String)
    (pk : β → String) (F : β → α → α)
    (hf : ∀ b x, key (F b x) = key x) (k : String) :
    ∀ (tc : List β), k ∉ tc.map pk → ∀ res : List α,
      findFirst key k
        (tc.foldl (fun rs p => updateFirst key (F p) (pk p) rs) res) =
      findFirst key k res := by
  intro tc
  induction tc with
  | nil =>
    intro _ res
    rfl
  | cons p0 rest ih =>
    intro hk res
    simp only [List.map_cons, List.mem_cons] at hk
    push_neg at hk
    simp only [List.foldl_cons]
    rw [ih hk.2, findFirst_updateFirst_ne key (F p0) hk.1 (hf p0)]

/-- With pairwise-distinct keys, a fold of keyed updates applies exactly
one update to what a lookup of a processed key sees. -/
lemma findFirst_foldl_update_mem {α β : Type} (key : α → String)
    (pk : β → String) (F : β → α → α)
    (hf : ∀ b x, key (F b x) = key x) :
    ∀ (tc : List β), (tc.map pk).Nodup → ∀ b ∈ tc, ∀ res : List α,
      findFirst key (pk b)
        (tc.foldl (fun rs p => updateFirst key (F p) (pk p) rs) res) =
      Option.map (F b) (findFirst key (pk b) res) := by
  intro tc
  induction tc with
  | nil =>
    intro _ b hb
    cases hb
  | cons p0 rest ih =>
    intro hnd b hb res
    simp only [List.map_cons, List.nodup_cons] at hnd
    simp only [List.foldl_cons]
    rcases List.mem_cons.1 hb with hb0 | hbr
    · subst hb0
      rw [findFirst_foldl_update_not_mem key pk F hf (pk b) rest hnd.1,
        findFirst_updateFirst_self key (F b) (hf b)]
    · have hne : pk b ≠ pk p0 := by
        intro e
        exact hnd.1 (e ▸ List.mem_map_of_mem pk hbr)
      rw [ih hnd.2 b hbr, findFirst_updateFirst_ne key (F p0) hne (hf p0)]

/-- `Upgrade.canPurchase` as a proposition. -/
lemma upg_canPurchase_iff (u : Upgrade) (res : List Resource) :
    u.canPurchase res = true ↔
      u.purchased < u.maxPurchases ∧
      ∀ c ∈ u.costs, ∃ r,
        findFirst Resource.id c.resourceId res = some r ∧ c.amount ≤ r.amount := by
  unfold Upgrade.canPurchase
  by_cases h : u.maxPurchases ≤ u.purchased
  · rw [if_pos h]
    constructor
    · intro h'
      cases h'
    · intro h'
      exact absurd h'.1 (not_lt.2 h)
  · rw [if_neg h]
    simp only [List.all_eq_true]
    constructor
    · intro h'
      exact ⟨not_le.1 h, fun c hc =>
        (afford_match_iff res c.resourceId c.amount).1 (h' c hc)⟩
    · intro h' c hc
      exact (afford_match_iff res c.resourceId c.amount).2 (h'.2 c hc)

/-- Claim C5 (amended: cost resource ids pairwise distinct): on success,
`Upgrade.purchase` deducts each flat cost from its resource, increments
`purchased` by one, fires the effect exactly once and returns the cost
list; when `canPurchase` fails it mutates nothing and returns an empty
cost list. -/
theorem C5_upgrade_purchase (u : Upgrade) (res : List Resource)
    (hnd : (u.costs.map UpgradeCost.resourceId).Nodup) :
    (u.canPurchase res = false → u.purchase res = ((false, []), u, res, 0)) ∧
    (u.canPurchase res = true →
      (u.purchase res).1 = (true, u.costs) ∧
      (u.purchase res).2.1 = { u with purchased := u.purchased + 1 } ∧
      (u.purchase res).2.2.2 = 1 ∧
      ∀ c ∈ u.costs, ∀ r, findFirst Resource.id c.resourceId res = some r →
        findFirst Resource.id c.resourceId (u.purchase res).2.2.1 =
          some { r with amount := r.amount - c.amount }) := by
  constructor
  · intro hc
    unfold Upgrade.purchase
    rw [hc]
    rfl
  · intro hc
    have hstep : u.purchase res =
        ((true, u.costs), { u with purchased := u.purchased + 1 },
          u.costs.foldl (fun rs c => updateFirst Resource.id
            (fun r => (r.subtract c.amount).2) c.resourceId rs) res, 1) := by
      unfold Upgrade.purchase
      rw [hc]
      rfl
    rw [hstep]
    refine ⟨rfl, rfl, rfl, ?_⟩
    intro c hcm r hr
    have hlook := findFirst_foldl_update_mem Resource.id UpgradeCost.resourceId
      (fun c r => (r.subtract c.amount).2) (fun c r => subtract_id r c.amount)
      u.costs hnd c hcm res
    rw [hlook, hr]
    obtain ⟨r', hr', hle⟩ := ((upg_canPurchase_iff u res).1 hc).2 c hcm
    rw [hr] at hr'
    cases hr'
    show some ((r.subtract c.amount).2) = some { r with amount := r.amount - c.amount }
    unfold Resource.subtract
    rw [if_pos hle]

/-- Claim C5 fails as stated for duplicate cost resource ids: two costs of
60 gold each pass `canPurchase` with a balance of 100 (each is affordable
alone), the purchase succeeds, but only the first `subtract` fires — 40
gold remain instead of 100 − 60 − 60, a partial deduction. -/
theorem C5_counterexample :
    (uC5.purchase resC5).1.1 = true ∧
    (uC5.purchase resC5).2.2.1 =
      [{ id := "gold", amount := 40, maxAmount := none }] ∧
    (40 : ℚ) ≠ 100 - 60 - 60 := by
  refine ⟨?_, ?_, by norm_num⟩ <;>
    norm_num [Upgrade.purchase, Upgrade.canPurchase, uC5, resC5, findFirst,
      updateFirst, Resource.canAfford, Resource.subtract]

/-- Witness for claim C5: a single-cost upgrade within the hypotheses. -/
theorem C5_witness :
    ((uC5w.costs.map UpgradeCost.resourceId).Nodup) ∧
    ((uC5w.canPurchase resC5 = false →
        uC5w.purchase resC5 = ((false, []), uC5w, resC5, 0)) ∧
     (uC5w.canPurchase resC5 = true →
       (uC5w.purchase resC5).1 = (true, uC5w.costs) ∧
       (uC5w.purchase resC5).2.1 = { uC5w with purchased := uC5w.purchased + 1 } ∧
       (uC5w.purchase resC5).2.2.2 = 1 ∧
       ∀ c ∈ uC5w.costs, ∀ r,
         findFirst Resource.id c.resourceId resC5 = some r →
           findFirst Resource.id c.resourceId (uC5w.purchase resC5).2.2.1 =
             some { r with amount := r.amount - c.amount })) :=
  ⟨by simp [uC5w], C5_upgrade_purchase uC5w resC5 (by simp [uC5w])⟩

end Idle

namespace Idle

/-- Absent keys contribute no summed value. -/
lemma sumVals_eq_zero {m : List (String × ℚ)} {k : String}
    (h : k ∉ m.map Prod.fst) : sumVals m k = 0 := by
  induction m with
  | nil => rfl
  | cons hd tl ih =>
    obtain ⟨a, b⟩ := hd
    simp only [List.map_cons, List.mem_cons] at h
    push_neg at h
    rw [sumVals_cons, if_neg (fun e => h.1 e.symm)]
    exact ih h.2

/-- In a key-disjoint image list, the summed value at a member's key is
exactly that member's value. -/
lemma sumVals_map_eq {β : Type} (fk : β → String) (fv : β → ℚ) :
    ∀ (l : List β), (l.map fk).Nodup → ∀ b ∈ l,
      sumVals (l.map fun x => (fk x, fv x)) (fk b) = fv b := by
  intro l
  induction l with
  | nil =>
    intro _ b hb
    cases hb
  | cons c0 rest ih =>
    intro hnd b hb
    simp only [List.map_cons, List.nodup_cons] at hnd
    simp only [List.map_cons]
    rcases List.mem_cons.1 hb with hb0 | hbr
    · subst hb0
      rw [sumVals_cons, if_pos rfl, sumVals_eq_zero, add_zero]
      rw [List.map_map]
      simpa using hnd.1
    · have hne : fk c0 ≠ fk b := by
        intro e
        exact hnd.1 (e ▸ List.mem_map_of_mem fk hbr)
      rw [sumVals_cons, if_neg hne]
      exact ih hnd.2 b hbr

/-- Inserting a fresh key appends. -/
lemma mapSet_append {m : List (String × ℚ)} {k : String} (v : ℚ)
    (h : k ∉ m.map Prod.fst) : mapSet m k v = m ++ [(k, v)] := by
  induction m with
  | nil => rfl
  | cons hd tl ih =>
    obtain ⟨a, b⟩ := hd
    simp only [List.map_cons, List.mem_cons] at h
    push_neg at h
    simp only [mapSet, List.cons_append]
    rw [ih h.2, if_neg (show ¬ a = k from fun e => h.1 e.symm)]

/-- A fold of `mapSet` insertions with pairwise-fresh keys appends the
image list. -/
lemma foldl_mapSet_eq_append {β : Type} (fk : β → String) (fv : β → ℚ) :
    ∀ (l : List β) (acc : List (String × ℚ)), (l.map fk).Nodup →
      (∀ b ∈ l, fk b ∉ acc.map Prod.fst) →
      l.foldl (fun m c => mapSet m (fk c) (fv c)) acc =
        acc ++ l.map fun c => (fk c, fv c) := by
  intro l
  induction l with
  | nil =>
    intro acc _ _
    simp
  | cons c0 rest ih =>
    intro acc hnd hfresh
    simp only [List.map_cons, List.nodup_cons] at hnd
    simp only [List.foldl_cons]
    rw [mapSet_append (fv c0) (hfresh c0 (List.mem_cons_self _ _))]
    rw [ih _ hnd.2 ?_]
    · simp
    · intro b hb
      simp only [List.map_append, List.mem_append]
      push_neg
      refine ⟨hfresh b (List.mem_cons_of_mem _ hb), ?_⟩
      simp only [List.map_cons, List.map_nil, List.mem_cons]
      push_neg
      exact ⟨fun e => hnd.1 (e ▸ List.mem_map_of_mem fk hb),
        List.not_mem_nil _⟩

/-- With distinct resource ids, the single-unit cost map lists every
schedule's price in order. -/
lemma costsFor_eq_map {g : Generator}
    (hnd : (g.costs.map GeneratorCost.resourceId).Nodup) (e : ℤ) :
    g.getCurrentCostsForPurchase e =
      g.costs.map fun c => (c.resourceId, c.baseAmount * c.scalingFactor ^ e) := by
  unfold Generator.getCurrentCostsForPurchase
  rw [foldl_mapSet_eq_append GeneratorCost.resourceId
    (fun c => c.baseAmount * c.scalingFactor ^ e) g.costs [] hnd
    (by intro b _ hb; cases hb)]
  simp

/-- Keys survive further `mapSet` insertions in a fold. -/
lemma mem_keys_foldl_mapSet_of_mem {β : Type} (fk : β → String) (fv : β → ℚ) :
    ∀ (l : List β) (acc : List (String × ℚ)) (k : String),
      k ∈ acc.map Prod.fst →
      k ∈ (l.foldl (fun m c => mapSet m (fk c) (fv c)) acc).map Prod.fst := by
  intro l
  induction l with
  | nil =>
    intro acc k hk
    exact hk
  | cons c0 rest ih =>
    intro acc k hk
    simp only [List.foldl_cons]
    exact ih _ k (mem_keys_mapSet.2 (Or.inl hk))

/-- Every inserted key ends up in the fold's key set. -/
lemma mem_keys_foldl_mapSet {β : Type} (fk : β → String) (fv : β → ℚ) :
    ∀ (l : List β) (acc : List (String × ℚ)) (b : β), b ∈ l →
      fk b ∈ (l.foldl (fun m c => mapSet m (fk c) (fv c)) acc).map Prod.fst := by
  intro l
  induction l with
  | nil =>
    intro acc b hb
    cases hb
  | cons c0 rest ih =>
    intro acc b hb
    simp only [List.foldl_cons]
    rcases List.mem_cons.1 hb with hb0 | hbr
    · subst hb0
      exact mem_keys_foldl_mapSet_of_mem fk fv rest _ (fk b)
        (mem_keys_mapSet.2 (Or.inr rfl))
    · exact ih _ b hbr

/-- For a positive quantity, every schedule's resource id is a key of the
bulk-cost map. -/
lemma rid_mem_keys_totalCost (g : Generator) {q : ℕ} (hq : 1 ≤ q)
    {c : GeneratorCost} (hc : c ∈ g.costs) :
    c.resourceId ∈ (g.totalCost q).map Prod.fst := by
  rcases Nat.exists_eq_add_of_le hq with ⟨q', rfl⟩
  refine mem_keys_totalCost_mono g (show 1 ≤ 1 + q' by omega) ?_
  rw [show (1 : ℕ) = 0 + 1 from rfl, totalCost_succ, totalCost_zero]
  refine mem_keys_addInto.2 (Or.inr ?_)
  unfold Generator.getCurrentCostsForPurchase
  exact mem_keys_foldl_mapSet GeneratorCost.resourceId _ g.costs [] c hc

/-- Conversely every key of the bulk-cost map is some schedule's id. -/
lemma keys_totalCost_sub (g : Generator) (q : ℕ) {k : String}
    (hk : k ∈ (g.totalCost q).map Prod.fst) :
    ∃ c ∈ g.costs, c.resourceId = k := by
  induction q with
  | zero => cases hk
  | succ n ih =>
    rw [totalCost_succ] at hk
    rcases mem_keys_addInto.1 hk with h | h
    · exact ih h
    · obtain ⟨p, hp, hpk⟩ := List.mem_map.1 h
      obtain ⟨c, hc, hpc⟩ := mem_getCurrentCostsForPurchase hp
      exact ⟨c, hc, by rw [← hpk, hpc]⟩

/-- The bulk-cost map entry of each schedule is the direct geometric
series sum, provided resource ids are pairwise distinct. -/
lemma totalCost_getD_eq_bulkSum (g : Generator)
    (hnd : (g.costs.map GeneratorCost.resourceId).Nodup) (n : ℕ) :
    ∀ c ∈ g.costs, mapGetD0 (g.totalCost n) c.resourceId = bulkSum g c n := by
  induction n with
  | zero =>
    intro c _
    simp [totalCost_zero, bulkSum, mapGetD0]
  | succ n ih =>
    intro c hc
    rw [totalCost_succ, mapGetD0_addInto, ih c hc, costsFor_eq_map hnd]
    have hs := sumVals_map_eq GeneratorCost.resourceId
      (fun c => c.baseAmount * c.scalingFactor ^ (g.purchased + (n : ℤ)))
      g.costs hnd c hc
    rw [hs]
    rw [bulkSum, bulkSum, Finset.sum_range_succ]

end Idle

namespace Idle

/-- Claim C1: for each cost schedule independently, the bulk cost checked
by `canPurchase` and charged by `purchase` is the direct summation
`Σ_{i=0}^{n-1} baseAmount × scalingFactor^(ownedCount+i)` (resource ids
pairwise distinct, as `Map` keys are); with `baseAmount = 10`,
`scalingFactor = 1.15`, owned count 0 and quantity 3 it equals 34.725. -/
theorem C1_bulk_cost_series :
    (∀ (g : Generator) (n : ℕ),
      (g.costs.map GeneratorCost.resourceId).Nodup →
      ∀ c ∈ g.costs, mapGetD0 (g.totalCost n) c.resourceId = bulkSum g c n) ∧
    (∀ (g : Generator) (res : List Resource) (q : ℤ),
      (g.costs.map GeneratorCost.resourceId).Nodup → 1 ≤ q →
      (g.canPurchase res q = true ↔
        (∀ m, g.maxPurchases = some m → g.purchased + q ≤ m) ∧
        ∀ c ∈ g.costs, ∃ r,
          findFirst Resource.id c.resourceId res = some r ∧
          bulkSum g c q.toNat ≤ r.amount)) ∧
    (∀ (g : Generator) (res : List Resource) (q : ℤ),
      (g.costs.map GeneratorCost.resourceId).Nodup →
      g.canPurchase res q = true →
      ∀ c ∈ g.costs, ∀ r, findFirst Resource.id c.resourceId res = some r →
        findFirst Resource.id c.resourceId (g.purchase res q).2.2 =
          some { r with amount := r.amount - bulkSum g c q.toNat }) ∧
    mapGetD0 (gC1ex.totalCost 3) "r" = 34.725 := by
  refine ⟨fun g n hnd => totalCost_getD_eq_bulkSum g hnd n, ?_, ?_, ?_⟩
  · intro g res q hnd hq
    rw [canPurchase_eq_true_iff]
    constructor
    · rintro ⟨hmax, haff⟩
      refine ⟨hmax, ?_⟩
      intro c hc
      have hk : c.resourceId ∈ (g.totalCost q.toNat).map Prod.fst :=
        rid_mem_keys_totalCost g (by omega) hc
      obtain ⟨r, hr, hle⟩ := haff _ (mem_of_mem_keys hk)
      refine ⟨r, hr, ?_⟩
      rw [← totalCost_getD_eq_bulkSum g hnd q.toNat c hc]
      exact hle
    · rintro ⟨hmax, haff⟩
      refine ⟨hmax, ?_⟩
      intro p hp
      obtain ⟨c, hc, hck⟩ :=
        keys_totalCost_sub g q.toNat (List.mem_map_of_mem Prod.fst hp)
      obtain ⟨r, hr, hle⟩ := haff c hc
      refine ⟨r, by rw [← hck]; exact hr, ?_⟩
      have hv : mapGetD0 (g.totalCost q.toNat) p.1 = p.2 :=
        mapGetD0_of_mem (nodup_keys_totalCost g _) hp
      calc p.2 = mapGetD0 (g.totalCost q.toNat) p.1 := hv.symm
        _ = mapGetD0 (g.totalCost q.toNat) c.resourceId := by rw [hck]
        _ = bulkSum g c q.toNat := totalCost_getD_eq_bulkSum g hnd q.toNat c hc
        _ ≤ r.amount := hle
  · intro g res q hnd hsucc c hc r hr
    have hstep : (g.purchase res q).2.2 =
        (g.totalCost q.toNat).foldl
          (fun rs p => updateFirst Resource.id (fun r => (r.subtract p.2).2) p.1 rs)
          res := by
      unfold Generator.purchase
      rw [hsucc]
      rfl
    rw [hstep]
    by_cases hq0 : q.toNat = 0
    · rw [hq0, totalCost_zero]
      simp only [List.foldl_nil]
      rw [hr]
      have hz : bulkSum g c 0 = 0 := by simp [bulkSum]
      rw [hz, sub_zero]
    · have hq1 : 1 ≤ q.toNat := by omega
      have hkey : (c.resourceId, bulkSum g c q.toNat) ∈ g.totalCost q.toNat := by
        have hk := mem_of_mem_keys (rid_mem_keys_totalCost g hq1 hc)
        rwa [totalCost_getD_eq_bulkSum g hnd q.toNat c hc] at hk
      have hlook' : findFirst Resource.id c.resourceId
          ((g.totalCost q.toNat).foldl
            (fun rs p => updateFirst Resource.id (fun r => (r.subtract p.2).2) p.1 rs)
            res) =
          Option.map (fun r => (r.subtract (bulkSum g c q.toNat)).2)
            (findFirst Resource.id c.resourceId res) :=
        findFirst_foldl_update_mem Resource.id Prod.fst
          (fun p r => (r.subtract p.2).2) (fun p r => subtract_id r p.2)
          (g.totalCost q.toNat) (nodup_keys_totalCost g _)
          (c.resourceId, bulkSum g c q.toNat) hkey res
      rw [hlook', hr]
      obtain ⟨r', hr', hle⟩ :=
        ((canPurchase_eq_true_iff g res q).1 hsucc).2 _ hkey
      have hr'' : findFirst Resource.id c.resourceId res = some r' := hr'
      rw [hr] at hr''
      cases hr''
      show some ((r.subtract (bulkSum g c q.toNat)).2) = _
      unfold Resource.subtract
      rw [if_pos hle]
  · have hnd : (gC1ex.costs.map GeneratorCost.resourceId).Nodup := by
      simp [gC1ex]
    have hc : ({ resourceId := "r", baseAmount := 10, scalingFactor := 1.15 } :
        GeneratorCost) ∈ gC1ex.costs := by
      simp [gC1ex]
    have h2 : mapGetD0 (gC1ex.totalCost 3) "r" =
        bulkSum gC1ex { resourceId := "r", baseAmount := 10, scalingFactor := 1.15 } 3 :=
      totalCost_getD_eq_bulkSum gC1ex hnd 3 _ hc
    rw [h2]
    simp [bulkSum, gC1ex, Finset.sum_range_succ]
    norm_num

/-- Witness for claim C1: the spec's example schedule has distinct ids and
its bulk-cost entries are the geometric series sums. -/
theorem C1_witness :
    ((gC1ex.costs.map GeneratorCost.resourceId).Nodup) ∧
    (∀ c ∈ gC1ex.costs,
      mapGetD0 (gC1ex.totalCost 3) c.resourceId = bulkSum gC1ex c 3) :=
  ⟨by simp [gC1ex], C1_bulk_cost_series.1 gC1ex 3 (by simp [gC1ex])⟩

end Idle

namespace Idle

/-- Claim C1 fails as stated when two cost schedules of one generator name
the same resource: `getCurrentCostsForPurchase` builds a `Map`, so the
later schedule's `set` replaces the earlier one's price.  With schedules
`(gold, 10, ×1)` and `(gold, 5, ×1)` the checked-and-charged bulk cost
for quantity 1 is 5 — not the first schedule's series value 10 — and a
balance of 6 passes `canPurchase`. -/
theorem C1_counterexample :
    ({ resourceId := "gold", baseAmount := 10, scalingFactor := 1 } :
      GeneratorCost) ∈ gC1dup.costs ∧
    bulkSum gC1dup
      { resourceId := "gold", baseAmount := 10, scalingFactor := 1 } 1 = 10 ∧
    mapGetD0 (gC1dup.totalCost 1) "gold" = 5 ∧
    gC1dup.canPurchase resG6 1 = true ∧ (5 : ℚ) ≠ 10 := by
  refine ⟨by simp [gC1dup], ?_, ?_, ?_, by norm_num⟩
  · simp [bulkSum, gC1dup, Finset.sum_range_succ]
  · norm_num [Generator.totalCost, Generator.getCurrentCostsForPurchase,
      gC1dup, mapSet, mapGetD0, addInto, List.range_succ, one_zpow]
  · norm_num [Generator.canPurchase, Generator.totalCost,
      Generator.getCurrentCostsForPurchase, gC1dup, resG6, mapSet, mapGetD0,
      List.range_succ, one_zpow, findFirst, Resource.canAfford]

end Idle

namespace Idle

/-- `Resource.add` never changes the id. -/
lemma add_id (r : Resource) (v : ℚ) : (r.add v).id = r.id := by
  unfold Resource.add
  cases r.maxAmount <;> simp <;> split_ifs <;> rfl

/-- Without a maximum, `Resource.add` is plain addition. -/
lemma add_of_no_max {r : Resource} (h : r.maxAmount = none) (v : ℚ) :
    r.add v = { r with amount := r.amount + v } := by
  unfold Resource.add
  rw [h]

/-- The offline loop adds, to each resource without a maximum, exactly the
summed positive production over the duration of the generators targeting
it. -/
lemma offline_fold_lookup (rid : String) (T : ℚ) (hT : 0 ≤ T) :
    ∀ (gens : List Generator) (st : EngineState) (r : Resource),
      findFirst Resource.id rid st.resources = some r → r.maxAmount = none →
      findFirst Resource.id rid (gens.foldl (offlineStep T) st).resources =
        some { r with amount := r.amount + gainOf gens rid T } := by
  intro gens
  induction gens with
  | nil =>
    intro st r hr hmax
    simp only [List.foldl_nil, gainOf, List.filter_nil, List.map_nil,
      List.sum_nil, add_zero]
    exact hr
  | cons g gs ih =>
    intro st r hr hmax
    simp only [List.foldl_cons]
    by_cases hgr : g.producesResourceId = rid
    · have hfind : findFirst Resource.id g.producesResourceId st.resources = some r := by
        rw [hgr]
        exact hr
      by_cases hpos : 0 < g.getCurrentProduction * T
      · have hstep : offlineStep T st g =
            { st with
                resources := updateFirst Resource.id
                  (fun r => r.add (g.getCurrentProduction * T))
                  g.producesResourceId st.resources,
                stats := st.stats.recordResourceEarned g.producesResourceId
                  (g.getCurrentProduction * T) } := by
          unfold offlineStep
          rw [hfind]
          simp only [if_pos hpos]
        rw [hstep]
        have hup : findFirst Resource.id rid
            (updateFirst Resource.id (fun r => r.add (g.getCurrentProduction * T))
              g.producesResourceId st.resources) =
            some (r.add (g.getCurrentProduction * T)) := by
          rw [hgr, findFirst_updateFirst_self Resource.id _ (fun x => add_id x _) rid, hr]
          rfl
        have hadd := add_of_no_max hmax (g.getCurrentProduction * T)
        rw [hadd] at hup
        have hrec := ih
          { st with
              resources := updateFirst Resource.id
                (fun r => r.add (g.getCurrentProduction * T))
                g.producesResourceId st.resources,
              stats := st.stats.recordResourceEarned g.producesResourceId
                (g.getCurrentProduction * T) }
          { r with amount := r.amount + g.getCurrentProduction * T }
          hup hmax
        rw [hrec]
        have hprod : 0 < g.getCurrentProduction := by
          rcases lt_or_le 0 g.getCurrentProduction with h | h
          · exact h
          · exfalso
            have : g.getCurrentProduction * T ≤ 0 := mul_nonpos_of_nonpos_of_nonneg h hT
            linarith
        have hgain : gainOf (g :: gs) rid T = g.getCurrentProduction * T + gainOf gs rid T := by
          unfold gainOf
          rw [List.filter_cons, if_pos (by simp [hgr, hprod])]
          simp
        rw [hgain]
        congr 1
        ring
      · have hstep : offlineStep T st g = st := by
          unfold offlineStep
          rw [hfind]
          simp only [if_neg hpos]
        rw [hstep, ih st r hr hmax]
        by_cases hprod : 0 < g.getCurrentProduction
        · have hz : g.getCurrentProduction * T = 0 := by
            have h1 : 0 ≤ g.getCurrentProduction * T :=
              mul_nonneg (le_of_lt hprod) hT
            have h2 : ¬ (0 < g.getCurrentProduction * T) := hpos
            linarith
          have hgain : gainOf (g :: gs) rid T =
              g.getCurrentProduction * T + gainOf gs rid T := by
            unfold gainOf
            rw [List.filter_cons, if_pos (by simp [hgr, hprod])]
            simp
          rw [hgain, hz, zero_add]
        · have hgain : gainOf (g :: gs) rid T = gainOf gs rid T := by
            unfold gainOf
            rw [List.filter_cons, if_neg (by simp [hprod])]
          rw [hgain]
    · have hgain : gainOf (g :: gs) rid T = gainOf gs rid T := by
        unfold gainOf
        rw [List.filter_cons, if_neg (by simp [hgr])]
      rw [hgain]
      cases hfind : findFirst Resource.id g.producesResourceId st.resources with
      | none =>
        have hstep : offlineStep T st g = st := by
          unfold offlineStep
          rw [hfind]
        rw [hstep]
        exact ih st r hr hmax
      | some r0 =>
        by_cases hpos : 0 < g.getCurrentProduction * T
        · have hstep : offlineStep T st g =
              { st with
                  resources := updateFirst Resource.id
                    (fun r => r.add (g.getCurrentProduction * T))
                    g.producesResourceId st.resources,
                  stats := st.stats.recordResourceEarned g.producesResourceId
                    (g.getCurrentProduction * T) } := by
            unfold offlineStep
            rw [hfind]
            simp only [if_pos hpos]
          rw [hstep]
          refine ih _ r ?_ hmax
          rw [findFirst_updateFirst_ne Resource.id _
            (fun e => hgr e.symm) (fun x => add_id x _)]
          exact hr
        · have hstep : offlineStep T st g = st := by
            unfold offlineStep
            rw [hfind]
            simp only [if_neg hpos]
          rw [hstep]
          exact ih st r hr hmax

end Idle

namespace Idle

/-- Claim C7 (amended: generators with non-positive production contribute
nothing, rather than subtracting): offline processing clamps the elapsed
seconds at 24 h — any gap of at least 86400 s behaves exactly like 86400 s,
hence 48 h equals 24 h — and each resource without a maximum gains the sum
of production × clamped-seconds over the generators targeting it whose
production is strictly positive. -/
theorem C7_offline_progress :
    (∀ (s : EngineState) (t : ℚ), 86400 ≤ t →
      processOfflineProgress s t = processOfflineProgress s 86400) ∧
    (∀ (s : EngineState) (t : ℚ) (rid : String) (r : Resource), 0 ≤ t →
      findFirst Resource.id rid s.resources = some r → r.maxAmount = none →
      findFirst Resource.id rid (processOfflineProgress s t).resources =
        some { r with amount := r.amount + offlineGain s rid t }) := by
  constructor
  · intro s t ht
    show s.generators.foldl (offlineStep (min t (24 * 60 * 60))) s =
      s.generators.foldl (offlineStep (min 86400 (24 * 60 * 60))) s
    have hc : (24 * 60 * 60 : ℚ) = 86400 := by norm_num
    rw [hc, min_eq_right ht, min_self]
  · intro s t rid r ht hr hmax
    show findFirst Resource.id rid
        ((s.generators.foldl (offlineStep (min t (24 * 60 * 60))) s).resources) = _
    exact offline_fold_lookup rid (min t (24 * 60 * 60))
      (le_min ht (by norm_num)) s.generators s r hr hmax

/-- Claim C7 fails as stated for a generator with negative production:
with production −1/s, owned count 1 and a 10-second gap, the claim's
"adds production × clamped-seconds" would leave 90 gold, but the source
skips non-positive production and leaves the 100 gold untouched. -/
theorem C7_counterexample :
    (processOfflineProgress sC7 10).resources =
      [{ id := "gold", amount := 100, maxAmount := none }] ∧
    gC7neg.getCurrentProduction * min 10 86400 = -10 ∧
    (100 : ℚ) ≠ 100 + (-10) := by
  refine ⟨?_, ?_, by norm_num⟩
  · show (List.foldl (offlineStep (min 10 (24 * 60 * 60))) sC7 sC7.generators).resources = _
    have hgens : sC7.generators = [gC7neg] := rfl
    rw [hgens]
    have hstep : offlineStep (min 10 (24 * 60 * 60)) sC7 gC7neg = sC7 := by
      unfold offlineStep
      have hfind : findFirst Resource.id gC7neg.producesResourceId sC7.resources =
          some { id := "gold", amount := 100, maxAmount := none } := by
        simp [sC7, gC7neg, findFirst]
      rw [hfind]
      have hneg : ¬ (0 < gC7neg.getCurrentProduction * min 10 (24 * 60 * 60)) := by
        have h1 : gC7neg.getCurrentProduction = -1 := by
          simp [Generator.getCurrentProduction, gC7neg]
        rw [h1, min_def]
        norm_num
      simp only [if_neg hneg]
    simp only [List.foldl_cons, List.foldl_nil, hstep]
    rfl
  · have h1 : gC7neg.getCurrentProduction = -1 := by
      simp [Generator.getCurrentProduction, gC7neg]
    rw [h1, min_def]
    norm_num

/-- Witness for claim C7: a 48-hour gap equals a 24-hour gap, and a
one-hour gap adds production × 3600 to the unbounded target resource. -/
theorem C7_witness :
    ((86400 : ℚ) ≤ 172800 ∧ (0 : ℚ) ≤ 3600 ∧
      findFirst Resource.id "gold" sC7w.resources = some rGold5 ∧
      rGold5.maxAmount = none) ∧
    (processOfflineProgress sC7w 172800 = processOfflineProgress sC7w 86400 ∧
     findFirst Resource.id "gold" (processOfflineProgress sC7w 3600).resources =
       some { rGold5 with amount := rGold5.amount + offlineGain sC7w "gold" 3600 }) :=
  ⟨⟨by norm_num, by norm_num, by simp [sC7w, findFirst, rGold5], rfl⟩,
   C7_offline_progress.1 sC7w 172800 (by norm_num),
   C7_offline_progress.2 sC7w 3600 "gold" rGold5 (by norm_num)
     (by simp [sC7w, findFirst, rGold5]) rfl⟩

end Idle

namespace Idle

/-- A fold whose body fixes the accumulator leaves it unchanged. -/
lemma foldl_const_of_id {β γ : Type} (f : γ → β → γ) (l : List β) (st : γ)
    (h : ∀ x ∈ l, f st x = st) : l.foldl f st = st := by
  induction l with
  | nil => rfl
  | cons x rest ih =>
    simp only [List.foldl_cons, h x (List.mem_cons_self _ _)]
    exact ih fun y hy => h y (List.mem_cons_of_mem _ hy)

/-- Setting an element's stored value to what the observables already
record is the identity on the list (keys pairwise distinct). -/
lemma updateFirst_obs_self {α γ : Type} (key : α → String) (val : α → γ)
    (set : γ → α → α) (hset : ∀ x, set (val x) x = x) :
    ∀ (l : List α), (l.map key).Nodup → ∀ (k : String) (v : γ),
      (k, v) ∈ (l.map fun x => (key x, val x)) →
      updateFirst key (set v) k l = l := by
  intro l
  induction l with
  | nil =>
    intro _ k v hm
    cases hm
  | cons x rest ih =>
    intro hnd k v hm
    simp only [List.map_cons, List.nodup_cons] at hnd
    simp only [updateFirst]
    by_cases hk : key x = k
    · rcases List.mem_cons.1 hm with hx | hx
      · have hvx : v = val x := by
          have := congrArg Prod.snd hx
          exact this
        rw [if_pos hk, hvx, hset x]
      · exfalso
        have : k ∈ rest.map key := by
          have h1 := List.mem_map_of_mem Prod.fst hx
          rw [List.map_map] at h1
          simpa using h1
        exact hnd.1 (hk ▸ this)
    · rw [if_neg hk]
      rcases List.mem_cons.1 hm with hx | hx
      · exfalso
        exact hk (congrArg Prod.fst hx).symm
      · rw [ih hnd.2 k v hx]

/-- Pointwise observable preservation transfers to iteration. -/
lemma iterate_obs4 (f : EngineState → EngineState)
    (hf : ∀ st, obs4 (f st) = obs4 st) :
    ∀ (n : ℕ) (st : EngineState), obs4 (f^[n] st) = obs4 st := by
  intro n
  induction n with
  | zero =>
    intro st
    rfl
  | succ n ih =>
    intro st
    rw [Function.iterate_succ_apply', hf, ih]

/-- Restoring every resource amount to its saved (= current) value is the
identity on the engine state. -/
lemma load_resources_fold_id (pairs : List (String × ℚ)) (st : EngineState)
    (hnd : (st.resources.map Resource.id).Nodup)
    (hmem : ∀ p ∈ pairs, p ∈ st.resources.map fun r => (r.id, r.amount)) :
    pairs.foldl loadResourceStep st = st := by
  refine foldl_const_of_id _ _ _ ?_
  intro p hp
  unfold loadResourceStep
  rw [updateFirst_obs_self Resource.id Resource.amount
    (fun v r => { r with amount := v }) (fun r => rfl) st.resources hnd
    p.1 p.2 (hmem p hp)]

/-- Restoring every generator's purchased count likewise. -/
lemma load_generators_fold_id (pairs : List (String × ℤ)) (st : EngineState)
    (hnd : (st.generators.map Generator.id).Nodup)
    (hmem : ∀ p ∈ pairs, p ∈ st.generators.map fun g => (g.id, g.purchased)) :
    pairs.foldl loadGeneratorStep st = st := by
  refine foldl_const_of_id _ _ _ ?_
  intro p hp
  unfold loadGeneratorStep
  rw [updateFirst_obs_self Generator.id Generator.purchased
    (fun v g => { g with purchased := v }) (fun g => rfl) st.generators hnd
    p.1 p.2 (hmem p hp)]

/-- Restoring every achievement's unlocked flag likewise. -/
lemma load_achievements_fold_id (pairs : List (String × Bool)) (st : EngineState)
    (hnd : (st.achievements.map Achievement.id).Nodup)
    (hmem : ∀ p ∈ pairs, p ∈ st.achievements.map fun a => (a.id, a.unlocked)) :
    pairs.foldl loadAchievementStep st = st := by
  refine foldl_const_of_id _ _ _ ?_
  intro p hp
  unfold loadAchievementStep
  rw [updateFirst_obs_self Achievement.id Achievement.unlocked
    (fun v a => { a with unlocked := v }) (fun a => rfl) st.achievements hnd
    p.1 p.2 (hmem p hp)]

end Idle

namespace Idle

/-- Zero elapsed offline time changes nothing. -/
lemma offlineStep_zero (st : EngineState) (g : Generator) :
    offlineStep 0 st g = st := by
  unfold offlineStep
  cases hf : findFirst Resource.id g.producesResourceId st.resources with
  | none => rfl
  | some r0 =>
    simp [mul_zero]

/-- `processOfflineProgress` with a zero gap is the identity. -/
lemma processOffline_zero (st : EngineState) :
    processOfflineProgress st 0 = st := by
  unfold processOfflineProgress
  rw [min_eq_left (by norm_num)]
  exact foldl_const_of_id _ _ _ fun g _ => offlineStep_zero st g

/-- Keys of the upgrade observables are the upgrade ids. -/
lemma map_fst_upgObs (s : EngineState) :
    (upgObs s).map Prod.fst = s.upgrades.map Upgrade.id := by
  simp [upgObs, List.map_map]

/-- Keys of the achievement observables are the achievement ids. -/
lemma map_fst_achObs (s : EngineState) :
    (achObs s).map Prod.fst = s.achievements.map Achievement.id := by
  simp [achObs, List.map_map]

/-- The upgrade-restoring loop (restore counts, replay effects) preserves
all four observables, provided the effects do and the replayed pairs are
already the current observables. -/
lemma load_upgrades_fold_obs (effects : String → EngineState → EngineState)
    (heff : ∀ uid st, obs4 (effects uid st) = obs4 st) :
    ∀ (pairs : List (String × ℤ)) (st : EngineState),
      (st.upgrades.map Upgrade.id).Nodup →
      (∀ p ∈ pairs, p ∈ st.upgrades.map fun u => (u.id, u.purchased)) →
      obs4 (pairs.foldl (loadUpgradeStep effects) st) = obs4 st := by
  intro pairs
  induction pairs with
  | nil =>
    intro st _ _
    rfl
  | cons p rest ih =>
    intro st hnd hmem
    simp only [List.foldl_cons]
    have hstep : obs4 (loadUpgradeStep effects st p) = obs4 st := by
      unfold loadUpgradeStep
      cases hf : findFirst Upgrade.id p.1 st.upgrades with
      | none => rfl
      | some u =>
        have hupd : updateFirst Upgrade.id (fun u => { u with purchased := p.2 }) p.1 st.upgrades
            = st.upgrades :=
          updateFirst_obs_self Upgrade.id Upgrade.purchased
            (fun v u => { u with purchased := v }) (fun u => rfl) st.upgrades hnd
            p.1 p.2 (hmem p (List.mem_cons_self _ _))
        show obs4 ((effects p.1)^[p.2.toNat] { st with upgrades := updateFirst Upgrade.id (fun u => { u with purchased := p.2 }) p.1 st.upgrades }) = obs4 st
        rw [hupd]
        exact iterate_obs4 (effects p.1) (fun st2 => heff p.1 st2) p.2.toNat st
    have hupgObs : upgObs (loadUpgradeStep effects st p) = upgObs st :=
      congrArg (fun t => t.2.2.1) hstep
    have hids : (loadUpgradeStep effects st p).upgrades.map Upgrade.id =
        st.upgrades.map Upgrade.id := by
      rw [← map_fst_upgObs, ← map_fst_upgObs, hupgObs]
    have hrec := ih (loadUpgradeStep effects st p) (hids ▸ hnd) ?_
    · rw [hrec, hstep]
    · intro q hq
      have : q ∈ upgObs st := hmem q (List.mem_cons_of_mem _ hq)
      rw [← hupgObs] at this
      exact this

/-- Loading the record just produced by `save` preserves the observables
whenever the save record's fields are the current observables. -/
lemma engineLoad_obs (effects : String → EngineState → EngineState)
    (heff : ∀ uid st, obs4 (effects uid st) = obs4 st)
    (sd : SaveData) (st : EngineState) (now : ℚ)
    (hr : sd.resources = resObs st) (hg : sd.generators = genObs st)
    (hu : sd.upgrades = upgObs st) (ha : sd.achievements = achObs st)
    (hts : sd.timestamp = now)
    (h1 : (st.resources.map Resource.id).Nodup)
    (h2 : (st.generators.map Generator.id).Nodup)
    (h3 : (st.upgrades.map Upgrade.id).Nodup)
    (h4 : (st.achievements.map Achievement.id).Nodup) :
    obs4 (engineLoad effects sd st now) = obs4 st := by
  simp only [engineLoad]
  rw [hts, sub_self, zero_div]
  rw [hr, load_resources_fold_id (resObs st) st h1 (fun p hp => hp)]
  rw [hg, load_generators_fold_id (genObs st) st h2 (fun p hp => hp)]
  rw [hu]
  have hobs3 := load_upgrades_fold_obs effects heff (upgObs st) st h3 (fun p hp => hp)
  have hach3 : achObs ((upgObs st).foldl (loadUpgradeStep effects) st) = achObs st :=
    congrArg (fun t => t.2.2.2) hobs3
  have hids : ((upgObs st).foldl (loadUpgradeStep effects) st).achievements.map Achievement.id =
      st.achievements.map Achievement.id := by
    rw [← map_fst_achObs, ← map_fst_achObs, hach3]
  rw [ha, load_achievements_fold_id (achObs st) _ (hids ▸ h4) ?_]
  · rw [processOffline_zero]
    exact hobs3
  · intro p hp
    rw [show ((upgObs st).foldl (loadUpgradeStep effects) st).achievements.map
        (fun a => (a.id, a.unlocked)) =
        achObs ((upgObs st).foldl (loadUpgradeStep effects) st) from rfl, hach3]
    exact hp

end Idle

namespace Idle

/-- Claim C8 (amended: upgrade effect callbacks must preserve the
observables — resource amounts, purchased counts, unlocked flags — as
multiplier-attaching effects do): `save()` immediately followed by
`load()` with zero elapsed time restores every resource amount, every
generator/upgrade purchased count and every achievement unlocked flag. -/
theorem C8_save_load_roundtrip (effects : String → EngineState → EngineState)
    (s : EngineState) (now : ℚ)
    (h1 : (s.resources.map Resource.id).Nodup)
    (h2 : (s.generators.map Generator.id).Nodup)
    (h3 : (s.upgrades.map Upgrade.id).Nodup)
    (h4 : (s.achievements.map Achievement.id).Nodup)
    (heff : ∀ uid st, obs4 (effects uid st) = obs4 st) :
    obs4 (engineLoad effects (engineSave s now).2 (engineSave s now).1 now) =
      obs4 s :=
  engineLoad_obs effects heff (engineSave s now).2 (engineSave s now).1 now
    rfl rfl rfl rfl rfl h1 h2 h3 h4

/-- Claim C8 fails as stated for an upgrade effect that mutates resource
amounts: load replays the effect after restoring the amounts, so a
purchased upgrade whose effect adds 100 gold turns the saved 50 gold into
150 on an immediate reload. -/
theorem C8_counterexample :
    resObs (engineLoad effC8bad (engineSave sC8 0).2 (engineSave sC8 0).1 0) =
      [("gold", 150)] ∧
    resObs sC8 = [("gold", 50)] ∧ (150 : ℚ) ≠ 50 := by
  refine ⟨?_, by norm_num [resObs, sC8], by norm_num⟩
  norm_num [engineLoad, engineSave, loadResourceStep, loadGeneratorStep,
    loadUpgradeStep, loadAchievementStep, processOfflineProgress, offlineStep,
    sC8, uC5w, statsInit, effC8bad, resObs, findFirst, updateFirst,
    Statistics.updateTimePlayed, Generator.getCurrentProduction, min_def]

/-- Witness for claim C8: with observable-preserving effects (identity,
as a stand-in for pure multiplier-attachment effects) the round trip
restores all observables of a concrete engine. -/
theorem C8_witness :
    (((sC8.resources.map Resource.id).Nodup ∧
      (sC8.generators.map Generator.id).Nodup ∧
      (sC8.upgrades.map Upgrade.id).Nodup ∧
      (sC8.achievements.map Achievement.id).Nodup) ∧
      (∀ uid st, obs4 (effC8id uid st) = obs4 st)) ∧
    obs4 (engineLoad effC8id (engineSave sC8 0).2 (engineSave sC8 0).1 0) =
      obs4 sC8 :=
  ⟨⟨⟨by simp [sC8], by simp [sC8], by simp [sC8, uC5w], by simp [sC8]⟩,
    fun _ _ => rfl⟩,
   C8_save_load_roundtrip effC8id sC8 0 (by simp [sC8]) (by simp [sC8])
     (by simp [sC8, uC5w]) (by simp [sC8]) (fun _ _ => rfl)⟩

end Idle
